import Mathlib

/-!
Verification development for the grpc-js core (Node gRPC runtime).

This file shallowly embeds the parts of the TypeScript source needed to
settle the frozen claims: the Metadata container and its HTTP/2 header
round trip, the server call stream (Http2ServerCallStream), the server
stream dispatch, the service-config validator and canary selector, the
client call stream (Http2CallStream) read/status state machine, and the
resolving load balancer resolution algorithm.

Conventions: JS strings are Lean String, Buffers are List Nat (bytes),
JS numbers are Nat / Int / Rat as appropriate (the source computes the
fractional deadline units in IEEE doubles; the embedding uses exact
rationals, which agrees on all integer-factor units), optional fields and
own-property checks are Option, thrown exceptions are Except.
-/

namespace GrpcJs

/-! ### Status codes (constants.ts, fixed enumeration from the spec data model) -/

def statusOK : Int := 0
def statusCANCELLED : Int := 1
def statusUNKNOWN : Int := 2
def statusDEADLINE_EXCEEDED : Int := 4
def statusPERMISSION_DENIED : Int := 7
def statusRESOURCE_EXHAUSTED : Int := 8
def statusOUT_OF_RANGE : Int := 11
def statusUNIMPLEMENTED : Int := 12
def statusINTERNAL : Int := 13
def statusUNAVAILABLE : Int := 14

/-! ### service-config.ts: method config name uniqueness (claim C6)

The validator builds result.methodConfig as a list of validated method
configs, each with a list of names having a service string and an optional
method string (absent fields are none; in JS, undefined === undefined is
true, matched here by none = none). -/

structure MethodConfigName where
  service : String
  method : Option String
deriving DecidableEq, Repr

structure MethodConfig where
  name : List MethodConfigName
  waitForReady : Option Bool := none
  timeout : Option String := none
  maxRequestBytes : Option Nat := none
  maxResponseBytes : Option Nat := none
deriving DecidableEq, Repr

/-- The duplicate test of the inner loop of validateServiceConfig:
name.service === seenName.service && name.method === seenName.method. -/
def sameMethodName (a b : MethodConfigName) : Bool :=
  a.service == b.service && a.method == b.method

/-- The uniqueness loop of validateServiceConfig (server.ts, service-config
part): names are visited in order, each compared against all seen names,
and a duplicate raises an error. The nested iteration over
result.methodConfig and each config's name array visits exactly the
flattened name list, which this loop takes directly. -/
def uniquenessLoop : List MethodConfigName → List MethodConfigName → Except String Unit
  | [], _ => .ok ()
  | n :: rest, seen =>
    if seen.any (fun s => sameMethodName n s) then
      .error ("Invalid service config: duplicate name " ++ n.service)
    else
      uniquenessLoop rest (seen ++ [n])

/-- All name entries across the whole config, in visit order. -/
def flatNames (mcs : List MethodConfig) : List MethodConfigName :=
  (mcs.map MethodConfig.name).flatten

/-- The method-name uniqueness phase of validateServiceConfig. -/
def validateServiceConfigUniqueness (mcs : List MethodConfig) : Except String Unit :=
  uniquenessLoop (flatNames mcs) []

theorem sameMethodName_comm (a b : MethodConfigName) :
    sameMethodName a b = sameMethodName b a := by
  simp only [sameMethodName]
  rw [Bool.eq_iff_iff]
  simp only [Bool.and_eq_true, beq_iff_eq]
  constructor <;> rintro ⟨x, y⟩ <;> exact ⟨x.symm, y.symm⟩

theorem uniquenessLoop_ok_iff (names : List MethodConfigName) :
    ∀ seen, uniquenessLoop names seen = .ok () ↔
      (names.Pairwise (fun a b => sameMethodName a b = false) ∧
        ∀ s ∈ seen, ∀ n ∈ names, sameMethodName n s = false) := by
  induction names with
  | nil => intro seen; simp [uniquenessLoop]
  | cons n rest ih =>
    intro seen
    rw [uniquenessLoop]
    rcases hseen : seen.any (fun s => sameMethodName n s) with _ | _
    · rw [if_neg (by simp), ih, List.pairwise_cons]
      have hseenall : ∀ s ∈ seen, sameMethodName n s = false := by
        intro s hs
        have : ¬ seen.any (fun s => sameMethodName n s) = true := by simp [hseen]
        rw [List.any_eq_true] at this
        push_neg at this
        exact Bool.not_eq_true _ |>.mp (this s hs)
      constructor
      · rintro ⟨hpair, hall⟩
        refine ⟨⟨fun b hb => ?_, hpair⟩, fun s hs m hm => ?_⟩
        · rw [sameMethodName_comm]
          exact hall n (by simp) b hb
        · rcases List.mem_cons.mp hm with hm | hm
          · subst hm; exact hseenall s hs
          · exact hall s (by simp [hs]) m hm
      · rintro ⟨⟨hn, hpair⟩, hall⟩
        refine ⟨hpair, fun s hs m hm => ?_⟩
        rcases List.mem_append.mp hs with hs | hs
        · exact hall s hs m (List.mem_cons_of_mem _ hm)
        · rw [List.mem_singleton] at hs
          subst hs
          rw [sameMethodName_comm]
          exact hn m hm
    · rw [if_pos rfl]
      constructor
      · intro h; exact Except.noConfusion h
      · rintro ⟨_, hall⟩
        rcases List.any_eq_true.mp hseen with ⟨s, hs, hns⟩
        have := hall s hs n (by simp)
        rw [this] at hns
        exact Bool.noConfusion hns

/-- Claim C6: for an otherwise well-formed service config, the validator
raises an error exactly when two name entries anywhere across the
methodConfig array (names flattened in order) share the same
(service, method) pair, absent methods included; without such a duplicate
the uniqueness check passes. -/
theorem validateServiceConfigUniqueness_ok_iff (mcs : List MethodConfig) :
    validateServiceConfigUniqueness mcs = .ok () ↔
      (flatNames mcs).Pairwise
        (fun a b => ¬ (a.service = b.service ∧ a.method = b.method)) := by
  rw [validateServiceConfigUniqueness, uniquenessLoop_ok_iff]
  constructor
  · rintro ⟨hpair, _⟩
    refine hpair.imp ?_
    intro a b hab hcontra
    rcases hcontra with ⟨h1, h2⟩
    simp [sameMethodName, h1, h2] at hab
  · intro hpair
    refine ⟨hpair.imp ?_, by simp⟩
    intro a b hab
    rcases h : sameMethodName a b with _ | _
    · rfl
    · exfalso
      simp only [sameMethodName, Bool.and_eq_true, beq_iff_eq] at h
      exact hab ⟨h.1, h.2⟩

/-! ### service-config.ts: canary config selection (claim C7)

A canary choice is the JSON object already typed: the four recognized
optional fields, plus the list of enumerable top-level field names outside
the allowed set (the source iterates the object with a for-in loop and
rejects any field not in allowedFields). The serviceConfig payload type is
a parameter; validateServiceConfig on a well-typed payload is the
identity for the purposes of selection. -/

structure CanaryChoice (SC : Type) where
  serviceConfig : Option SC
  clientLanguage : Option (List String)
  percentage : Option Rat
  clientHostname : Option (List String)
  extraFields : List String
deriving DecidableEq, Repr

structure ValidatedCanaryChoice (SC : Type) where
  serviceConfig : SC
  clientLanguage : Option (List String)
  percentage : Option Rat
  clientHostname : Option (List String)
deriving DecidableEq, Repr

def CLIENT_LANGUAGE_STRING : String := "node"

/-- JS String.prototype.startsWith over the character lists (the Lean
builtin String.startsWith does not reduce in the kernel). -/
def strStartsWithChars : List Char → List Char → Bool
  | _, [] => true
  | [], _ :: _ => false
  | c :: cs, p :: ps => c == p && strStartsWithChars cs ps

def strStartsWith (s pat : String) : Bool :=
  strStartsWithChars s.data pat.data

/-- validateCanaryConfig from service-config.ts: requires serviceConfig,
validates percentage range 0..100 when present, and rejects any
unexpected top-level field. (String-typed list elements are guaranteed by
the typed embedding, so those checks always pass here.) -/
def validateCanaryConfig {SC : Type} (c : CanaryChoice SC) :
    Except String (ValidatedCanaryChoice SC) :=
  match c.serviceConfig with
  | none => .error "Invalid service config choice: missing service config"
  | some sc =>
    match c.percentage with
    | some p =>
      if 0 ≤ p ∧ p ≤ 100 then
        if c.extraFields = [] then
          .ok ⟨sc, c.clientLanguage, some p, c.clientHostname⟩
        else .error "Invalid service config choice: unexpected field"
      else .error "Invalid service config choice: invalid percentage"
    | none =>
      if c.extraFields = [] then
        .ok ⟨sc, c.clientLanguage, none, c.clientHostname⟩
      else .error "Invalid service config choice: unexpected field"

/-- The three sequential skip checks of validateAndSelectCanaryConfig on a
validated choice: percentage present and exceeded, hostname list present
without the OS hostname, language list present without the client tag. -/
def validatedChoiceSkipped {SC : Type} (hostname : String) (percentage : Rat)
    (v : ValidatedCanaryChoice SC) : Bool :=
  (match v.percentage with
   | some p => decide (percentage > p)
   | none => false) ||
  (match v.clientHostname with
   | some l => decide (hostname ∉ l)
   | none => false) ||
  (match v.clientLanguage with
   | some l => decide (CLIENT_LANGUAGE_STRING ∉ l)
   | none => false)

/-- validateAndSelectCanaryConfig from service-config.ts: validate each
choice in order, skip per the three checks, return the first surviving
serviceConfig, or fail. The OS hostname is a parameter here in place of
os.hostname(). -/
def validateAndSelectCanaryConfig {SC : Type} (hostname : String) (percentage : Rat) :
    List (CanaryChoice SC) → Except String SC
  | [] => .error "No matching service config found"
  | c :: rest =>
    match validateCanaryConfig c with
    | .error e => .error e
    | .ok v =>
      if validatedChoiceSkipped hostname percentage v then
        validateAndSelectCanaryConfig hostname percentage rest
      else .ok v.serviceConfig

/-- extractAndSelectServiceConfig from service-config.ts: scan the TXT
records for the first whose first string starts with grpc_config=,
concatenate the remainder of that record after stripping the marker, hand
the string to the JSON parser (JSON.parse is a platform builtin, passed
here as a parameter), and select among the resulting choices; with no
matching record the result is null. -/
def extractAndSelectServiceConfig {SC : Type}
    (parseJson : String → Except String (List (CanaryChoice SC)))
    (hostname : String) (percentage : Rat) :
    List (List String) → Except String (Option SC)
  | [] => .ok none
  | record :: rest =>
    match record with
    | [] => extractAndSelectServiceConfig parseJson hostname percentage rest
    | first :: tail =>
      if strStartsWith first "grpc_config=" then
        match parseJson ((first.drop 12) ++ String.join tail) with
        | .error e => .error e
        | .ok choices =>
          (validateAndSelectCanaryConfig hostname percentage choices).map some
      else extractAndSelectServiceConfig parseJson hostname percentage rest

/-- The skip condition of the claim, stated on a raw choice. -/
def canaryChoiceSkipped {SC : Type} (hostname : String) (percentage : Rat)
    (c : CanaryChoice SC) : Bool :=
  (match c.percentage with
   | some p => decide (percentage > p)
   | none => false) ||
  (match c.clientHostname with
   | some l => decide (hostname ∉ l)
   | none => false) ||
  (match c.clientLanguage with
   | some l => decide (CLIENT_LANGUAGE_STRING ∉ l)
   | none => false)

/-- A record is a grpc_config TXT record when it is nonempty and its first
string starts with the marker. -/
def isGrpcConfigRecord : List String → Bool
  | [] => false
  | first :: _ => strStartsWith first "grpc_config="

theorem validateCanaryConfig_ok_fields {SC : Type} (c : CanaryChoice SC)
    (v : ValidatedCanaryChoice SC) (h : validateCanaryConfig c = .ok v) :
    c.serviceConfig = some v.serviceConfig ∧ v.clientLanguage = c.clientLanguage ∧
      v.percentage = c.percentage ∧ v.clientHostname = c.clientHostname := by
  rcases hsc : c.serviceConfig with _ | sc
  · simp only [validateCanaryConfig, hsc] at h
    exact Except.noConfusion h
  · rcases hp : c.percentage with _ | p
    · simp only [validateCanaryConfig, hsc, hp] at h
      split at h
      · rcases h with ⟨⟩
        exact ⟨rfl, rfl, rfl, rfl⟩
      · exact Except.noConfusion h
    · simp only [validateCanaryConfig, hsc, hp] at h
      split at h
      · split at h
        · rcases h with ⟨⟩
          exact ⟨rfl, rfl, rfl, rfl⟩
        · exact Except.noConfusion h
      · exact Except.noConfusion h

theorem validateAndSelectCanaryConfig_characterization {SC : Type}
    (hostname : String) (percentage : Rat) (choices : List (CanaryChoice SC))
    (hvalid : ∀ c ∈ choices, ∃ v, validateCanaryConfig c = .ok v) :
    validateAndSelectCanaryConfig hostname percentage choices =
      match (choices.find? (fun c => ! canaryChoiceSkipped hostname percentage c)).bind
          CanaryChoice.serviceConfig with
      | some sc => .ok sc
      | none => .error "No matching service config found" := by
  induction choices with
  | nil => simp [validateAndSelectCanaryConfig]
  | cons c rest ih =>
    obtain ⟨v, hv⟩ := hvalid c (by simp)
    obtain ⟨hsc, hlang, hpct, hhost⟩ := validateCanaryConfig_ok_fields c v hv
    have hskipEq : canaryChoiceSkipped hostname percentage c =
        validatedChoiceSkipped hostname percentage v := by
      rw [canaryChoiceSkipped, validatedChoiceSkipped, hlang, hpct, hhost]
    simp only [validateAndSelectCanaryConfig, hv]
    rcases hsk : validatedChoiceSkipped hostname percentage v with _ | _
    · rw [if_neg (by simp)]
      rw [List.find?_cons_of_pos _ (by simp [hskipEq, hsk])]
      simp [hsc]
    · rw [if_pos rfl]
      rw [List.find?_cons_of_neg _ (by simp [hskipEq, hsk])]
      exact ih (fun x hx => hvalid x (by simp [hx]))

theorem validateCanaryConfig_rejects_extraFields {SC : Type} (c : CanaryChoice SC)
    (h : c.extraFields ≠ []) : ∃ e, validateCanaryConfig c = .error e := by
  rcases hsc : c.serviceConfig with _ | sc
  · exact ⟨"Invalid service config choice: missing service config",
      by simp only [validateCanaryConfig, hsc]⟩
  · rcases hp : c.percentage with _ | p
    · exact ⟨"Invalid service config choice: unexpected field",
        by simp only [validateCanaryConfig, hsc, hp, if_neg h]⟩
    · by_cases hrange : 0 ≤ p ∧ p ≤ 100
      · exact ⟨"Invalid service config choice: unexpected field",
          by simp only [validateCanaryConfig, hsc, hp, if_pos hrange, if_neg h]⟩
      · exact ⟨"Invalid service config choice: invalid percentage",
          by simp only [validateCanaryConfig, hsc, hp, if_neg hrange]⟩

theorem extractAndSelectServiceConfig_first_record {SC : Type}
    (parseJson : String → Except String (List (CanaryChoice SC)))
    (hostname : String) (percentage : Rat)
    (pre post : List (List String)) (first : String) (tail : List String)
    (hpre : ∀ rec ∈ pre, isGrpcConfigRecord rec = false)
    (hfirst : strStartsWith first "grpc_config=" = true) :
    extractAndSelectServiceConfig parseJson hostname percentage
        (pre ++ (first :: tail) :: post) =
      match parseJson ((first.drop 12) ++ String.join tail) with
      | .error e => .error e
      | .ok choices =>
        (validateAndSelectCanaryConfig hostname percentage choices).map some := by
  induction pre with
  | nil =>
    rw [List.nil_append]
    simp only [extractAndSelectServiceConfig, hfirst, if_pos]
  | cons rec rest ih =>
    have hrec := hpre rec (by simp)
    rw [List.cons_append]
    rcases rec with _ | ⟨f, t⟩
    · simp only [extractAndSelectServiceConfig]
      exact ih (fun r hr => hpre r (by simp [hr]))
    · simp only [isGrpcConfigRecord] at hrec
      simp only [extractAndSelectServiceConfig, hrec, Bool.false_eq_true, if_false]
      exact ih (fun r hr => hpre r (by simp [hr]))

/-- Claim C7: canary selection (i) uses the first TXT record starting with
grpc_config=, stripping the marker and concatenating the remaining
strings before parsing; (ii) over well-formed choices returns the
serviceConfig of the first choice that is not skipped, a choice being
skipped exactly when its percentage is present and exceeded by the caller
percentile, or its hostname list is present and misses the OS hostname,
or its language list is present and misses the tag node; when every
choice is skipped the selection fails with an error; and (iii) a choice
with any top-level field outside the allowed four is rejected. -/
theorem canary_selection_spec {SC : Type}
    (parseJson : String → Except String (List (CanaryChoice SC)))
    (hostname : String) (percentage : Rat)
    (pre post : List (List String)) (first : String) (tail : List String)
    (choices : List (CanaryChoice SC)) (bad : CanaryChoice SC)
    (hpre : ∀ rec ∈ pre, isGrpcConfigRecord rec = false)
    (hfirst : strStartsWith first "grpc_config=" = true)
    (hvalid : ∀ c ∈ choices, ∃ v, validateCanaryConfig c = .ok v)
    (hbad : bad.extraFields ≠ []) :
    (extractAndSelectServiceConfig parseJson hostname percentage
        (pre ++ (first :: tail) :: post) =
      match parseJson ((first.drop 12) ++ String.join tail) with
      | .error e => .error e
      | .ok cs => (validateAndSelectCanaryConfig hostname percentage cs).map some) ∧
    (validateAndSelectCanaryConfig hostname percentage choices =
      match (choices.find? (fun c => ! canaryChoiceSkipped hostname percentage c)).bind
          CanaryChoice.serviceConfig with
      | some sc => .ok sc
      | none => .error "No matching service config found") ∧
    (∃ e, validateCanaryConfig bad = .error e) :=
  ⟨extractAndSelectServiceConfig_first_record parseJson hostname percentage
      pre post first tail hpre hfirst,
    validateAndSelectCanaryConfig_characterization hostname percentage choices hvalid,
    validateCanaryConfig_rejects_extraFields bad hbad⟩

/-- Witness for C7 at the E5 scenario: a TXT record whose first choice
matches only client language other and whose second has no constraint;
selection picks the second serviceConfig. -/
theorem canary_selection_spec_witness :
    (extractAndSelectServiceConfig
        (fun _ => .ok [⟨some 1, some ["other"], none, none, []⟩,
                       ⟨some 2, none, none, none, []⟩])
        "myhost" 42
        ([["other=record"]] ++
          ("grpc_config=[]" :: []) :: []) = .ok (some (2 : Nat))) ∧
    (validateAndSelectCanaryConfig "myhost" 42
        [⟨some 1, some ["other"], none, none, []⟩,
         ⟨some 2, none, none, none, []⟩] = .ok (2 : Nat)) := by
  have h := @canary_selection_spec Nat
    (fun _ => .ok [⟨some 1, some ["other"], none, none, []⟩,
                   ⟨some 2, none, none, none, []⟩])
    "myhost" 42
    [["other=record"]] [] "grpc_config=[]" []
    [⟨some 1, some ["other"], none, none, []⟩, ⟨some 2, none, none, none, []⟩]
    ⟨some 3, none, none, none, ["unknownField"]⟩
    (by intro rec hrec
        simp only [List.mem_singleton] at hrec
        subst hrec
        rfl)
    (by rfl)
    (by intro c hc
        simp only [List.mem_cons, List.not_mem_nil, or_false] at hc
        rcases hc with rfl | rfl
        · exact ⟨_, rfl⟩
        · exact ⟨_, rfl⟩)
    (by simp)
  obtain ⟨h1, h2, _⟩ := h
  refine ⟨?_, ?_⟩
  · rw [h1]
    rfl
  · rw [h2]
    rfl

/-! ### metadata.ts: the Metadata container (claim C2)

internalRepr is a JS Map from normalized key to a list of values, iterated
in insertion order: an association list here. A value is a string or a
Buffer (a byte list). Character classes of the validation regexes are
expressed by code points. -/

inductive MetaVal where
  | str : String → MetaVal
  | bin : List Nat → MetaVal
deriving DecidableEq, Repr

abbrev MetadataM := List (String × List MetaVal)

inductive HeaderVal where
  | arr : List String → HeaderVal
  | single : String → HeaderVal
deriving DecidableEq, Repr

/-- Character class of LEGAL_KEY_REGEX, the set 0-9 a-z underscore dot dash. -/
def isLegalKeyChar (c : Char) : Bool :=
  (48 ≤ c.toNat && c.toNat ≤ 57) || (97 ≤ c.toNat && c.toNat ≤ 122) ||
    c.toNat == 95 || c.toNat == 46 || c.toNat == 45

/-- LEGAL_KEY_REGEX test: one or more legal key characters. -/
def isLegalKey (k : String) : Bool :=
  !k.data.isEmpty && k.data.all isLegalKeyChar

/-- LEGAL_NON_BINARY_VALUE_REGEX test: printable ASCII, space through tilde. -/
def isLegalNonBinaryValue (s : String) : Bool :=
  s.data.all (fun c => 32 ≤ c.toNat && c.toNat ≤ 126)

/-- key.endsWith of the marker dash b i n. -/
def isBinaryKey (k : String) : Bool :=
  strStartsWithChars k.data.reverse ['n', 'i', 'b', '-']

/-- key.toLowerCase() restricted to ASCII (all legal keys are ASCII). -/
def toLowerCaseChar (c : Char) : Char :=
  if 65 ≤ c.toNat ∧ c.toNat ≤ 90 then Char.ofNat (c.toNat + 32) else c

def normalizeKey (key : String) : String :=
  String.mk (key.data.map toLowerCaseChar)

/-- validate from metadata.ts: checks the key shape and, when a value is
given, that binary keys carry Buffers and other keys carry legal strings. -/
def validateMd (key : String) (value : Option MetaVal) : Except String Unit :=
  if isLegalKey key = false then
    .error "Metadata key contains illegal characters"
  else
    match value with
    | none => .ok ()
    | some v =>
      if isBinaryKey key then
        match v with
        | .bin _ => .ok ()
        | .str _ => .error "keys that end with -bin must have Buffer values"
      else
        match v with
        | .bin _ => .error "keys that do not end with -bin must have String values"
        | .str s =>
          if isLegalNonBinaryValue s = false then
            .error "Metadata string value contains illegal characters"
          else .ok ()

/-- Append a value to the entry of a key in the internal representation,
creating the entry at the end (Map insertion order) if absent. -/
def addToRepr : MetadataM → String → MetaVal → MetadataM
  | [], k, v => [(k, [v])]
  | (k0, vs) :: rest, k, v =>
    if k0 = k then (k0, vs ++ [v]) :: rest
    else (k0, vs) :: addToRepr rest k v

/-- Metadata.add: normalize the key, validate, then append to the list of
previous values of that key. -/
def mdAdd (md : MetadataM) (key : String) (value : MetaVal) : Except String MetadataM :=
  match validateMd (normalizeKey key) (some value) with
  | .error e => .error e
  | .ok _ => .ok (addToRepr md (normalizeKey key) value)

/-! #### Base64 (Buffer.prototype.toString base64 / Buffer.from base64) -/

def b64char (n : Nat) : Char :=
  if n < 26 then Char.ofNat (65 + n)
  else if n < 52 then Char.ofNat (97 + (n - 26))
  else if n < 62 then Char.ofNat (48 + (n - 52))
  else if n = 62 then '+'
  else '/'

def b64val (c : Char) : Option Nat :=
  if 65 ≤ c.toNat ∧ c.toNat ≤ 90 then some (c.toNat - 65)
  else if 97 ≤ c.toNat ∧ c.toNat ≤ 122 then some (c.toNat - 97 + 26)
  else if 48 ≤ c.toNat ∧ c.toNat ≤ 57 then some (c.toNat - 48 + 52)
  else if c = '+' then some 62
  else if c = '/' then some 63
  else none

/-- Standard base64 with padding, three bytes to four characters. -/
def b64encodeChunks : List Nat → List Char
  | b1 :: b2 :: b3 :: rest =>
    b64char (b1 / 4) :: b64char (b1 % 4 * 16 + b2 / 16) ::
      b64char (b2 % 16 * 4 + b3 / 64) :: b64char (b3 % 64) :: b64encodeChunks rest
  | [b1, b2] => [b64char (b1 / 4), b64char (b1 % 4 * 16 + b2 / 16), b64char (b2 % 16 * 4), '=']
  | [b1] => [b64char (b1 / 4), b64char (b1 % 4 * 16), '=', '=']
  | [] => []

def base64encode (b : List Nat) : String :=
  String.mk (b64encodeChunks b)

/-- Base64 decoding of the 6-bit value stream: four values to three bytes,
with a trailing group of three giving two bytes and of two giving one
(Node drops a lone trailing value). -/
def b64decodeVals : List Nat → List Nat
  | v1 :: v2 :: v3 :: v4 :: rest =>
    (v1 * 4 + v2 / 16) :: (v2 % 16 * 16 + v3 / 4) :: (v3 % 4 * 64 + v4) :: b64decodeVals rest
  | [v1, v2, v3] => [v1 * 4 + v2 / 16, v2 % 16 * 16 + v3 / 4]
  | [v1, v2] => [v1 * 4 + v2 / 16]
  | _ => []

/-- Buffer.from(s, base64): non-alphabet characters, padding included, are
ignored; the surviving 6-bit values are decoded in groups. -/
def base64decode (s : String) : List Nat :=
  b64decodeVals (s.data.filterMap b64val)

theorem b64val_b64char : ∀ n, n < 64 → b64val (b64char n) = some n := by decide

theorem b64val_eq_char : b64val '=' = none := by decide

theorem b64_chunks_roundtrip : ∀ (b : List Nat), (∀ x ∈ b, x < 256) →
    b64decodeVals ((b64encodeChunks b).filterMap b64val) = b := by
  intro b
  induction b using b64encodeChunks.induct with
  | case1 b1 b2 b3 rest ih =>
    intro h
    have h1 : b1 < 256 := h b1 (by simp)
    have h2 : b2 < 256 := h b2 (by simp)
    have h3 : b3 < 256 := h b3 (by simp)
    rw [b64encodeChunks]
    simp only [List.filterMap_cons,
      b64val_b64char (b1 / 4) (by omega),
      b64val_b64char (b1 % 4 * 16 + b2 / 16) (by omega),
      b64val_b64char (b2 % 16 * 4 + b3 / 64) (by omega),
      b64val_b64char (b3 % 64) (by omega)]
    rw [b64decodeVals]
    have e1 : b1 / 4 * 4 + (b1 % 4 * 16 + b2 / 16) / 16 = b1 := by omega
    have e2 : (b1 % 4 * 16 + b2 / 16) % 16 * 16 + (b2 % 16 * 4 + b3 / 64) / 4 = b2 := by omega
    have e3 : (b2 % 16 * 4 + b3 / 64) % 4 * 64 + b3 % 64 = b3 := by omega
    rw [e1, e2, e3, ih (fun x hx => h x (by simp [hx]))]
  | case2 b1 b2 =>
    intro h
    have h1 : b1 < 256 := h b1 (by simp)
    have h2 : b2 < 256 := h b2 (by simp)
    rw [b64encodeChunks]
    simp only [List.filterMap_cons,
      b64val_b64char (b1 / 4) (by omega),
      b64val_b64char (b1 % 4 * 16 + b2 / 16) (by omega),
      b64val_b64char (b2 % 16 * 4) (by omega),
      b64val_eq_char, List.filterMap_nil]
    rw [b64decodeVals]
    have e1 : b1 / 4 * 4 + (b1 % 4 * 16 + b2 / 16) / 16 = b1 := by omega
    have e2 : (b1 % 4 * 16 + b2 / 16) % 16 * 16 + b2 % 16 * 4 / 4 = b2 := by omega
    rw [e1, e2]
  | case3 b1 =>
    intro h
    have h1 : b1 < 256 := h b1 (by simp)
    rw [b64encodeChunks]
    simp only [List.filterMap_cons,
      b64val_b64char (b1 / 4) (by omega),
      b64val_b64char (b1 % 4 * 16) (by omega),
      b64val_eq_char, List.filterMap_nil]
    rw [b64decodeVals]
    have e1 : b1 / 4 * 4 + b1 % 4 * 16 / 16 = b1 := by omega
    rw [e1]
  | case4 =>
    intro _
    rfl

theorem base64_roundtrip (b : List Nat) (h : ∀ x ∈ b, x < 256) :
    base64decode (base64encode b) = b :=
  b64_chunks_roundtrip b h

/-! #### Header serialization (Metadata.toHttp2Headers / fromHttp2Headers) -/

def encodeMetaVal : MetaVal → String
  | .bin b => base64encode b
  | .str s => s

/-- Metadata.toHttp2Headers: assigns result[key] = values on a plain JS
object literal, every key mapping to the array of its values with
Buffers rendered in base64. The legal key proto-surrounded-by-double-
underscores hits the accessor of that name on Object.prototype instead
of creating an own property, so its entry is silently dropped from the
produced header object; every other legal key (all lowercase, so no
other Object.prototype member can be named) becomes an own property. -/
def toHttp2Headers (md : MetadataM) : List (String × HeaderVal) :=
  (md.filter (fun e => e.1 != "__proto__")).map (fun e => (e.1, .arr (e.2.map encodeMetaVal)))

/-- On metadata without the proto key the object assignments all create
own properties and the encoding keeps every entry. -/
theorem toHttp2Headers_no_proto (md : MetadataM)
    (h : ∀ e ∈ md, e.1 ≠ "__proto__") :
    toHttp2Headers md = md.map (fun e => (e.1, .arr (e.2.map encodeMetaVal))) := by
  rw [toHttp2Headers, List.filter_eq_self.mpr]
  intro e he
  simpa using h e he

/-- The per-key try block of fromHttp2Headers: values are added in order
through Metadata.add; the first failing add aborts the key (the error is
reported out of band with process.emitWarning and the remaining values of
that key are dropped), keeping the adds already done. -/
def addAllOrStop (md : MetadataM) (key : String) : List MetaVal → MetadataM
  | [] => md
  | v :: rest =>
    match mdAdd md key v with
    | .ok md2 => addAllOrStop md2 key rest
    | .error _ => md

/-- One header entry of Metadata.fromHttp2Headers: keys whose first
character is a colon are reserved and skipped; binary keys decode each
array element (or each comma-split, trimmed piece of a single string)
from base64; other keys add elements (or comma-split, trimmed pieces)
as strings. -/
def fromHeadersStep (result : MetadataM) (kv : String × HeaderVal) : MetadataM :=
  if kv.1.data.head? = some ':' then result
  else
    if isBinaryKey kv.1 then
      match kv.2 with
      | .arr vs => addAllOrStop result kv.1 (vs.map (fun v => .bin (base64decode v)))
      | .single v =>
        addAllOrStop result kv.1
          ((v.splitOn ",").map (fun piece => .bin (base64decode piece.trim)))
    else
      match kv.2 with
      | .arr vs => addAllOrStop result kv.1 (vs.map .str)
      | .single v =>
        addAllOrStop result kv.1 ((v.splitOn ",").map (fun piece => .str piece.trim))

def fromHttp2Headers (headers : List (String × HeaderVal)) : MetadataM :=
  headers.foldl fromHeadersStep []

/-! #### Legality of a metadata object, and the round trip -/

def metaValIsLegalBin : MetaVal → Bool
  | .bin b => b.all (fun x => x < 256)
  | .str _ => false

def metaValIsLegalStr : MetaVal → Bool
  | .str s => isLegalNonBinaryValue s
  | .bin _ => false

/-- One entry is legal: legal key, at least one value (the public API
cannot produce an empty value list), Buffers of bytes exactly on binary
keys and printable strings elsewhere. -/
def legalEntry (k : String) (vs : List MetaVal) : Bool :=
  isLegalKey k && !vs.isEmpty &&
    (if isBinaryKey k then vs.all metaValIsLegalBin else vs.all metaValIsLegalStr)

/-- A whole metadata object is legal: distinct (Map) keys, legal entries. -/
def LegalMetadata (md : MetadataM) : Prop :=
  (md.map Prod.fst).Nodup ∧ md.all (fun e => legalEntry e.1 e.2) = true

instance : DecidablePred LegalMetadata := fun _ =>
  inferInstanceAs (Decidable (_ ∧ _))

theorem toLowerCaseChar_legal (c : Char) (h : isLegalKeyChar c = true) :
    toLowerCaseChar c = c := by
  simp only [isLegalKeyChar, Bool.or_eq_true, Bool.and_eq_true, decide_eq_true_eq,
    beq_iff_eq] at h
  rw [toLowerCaseChar, if_neg (by omega)]

theorem normalizeKey_legal (k : String) (h : isLegalKey k = true) :
    normalizeKey k = k := by
  simp only [isLegalKey, Bool.and_eq_true, List.all_eq_true] at h
  rw [normalizeKey]
  have hmap : k.data.map toLowerCaseChar = k.data.map id :=
    List.map_congr_left (fun c hc => toLowerCaseChar_legal c (h.2 c hc))
  rw [hmap, List.map_id]

theorem legalKey_head_not_colon (k : String) (h : isLegalKey k = true) :
    k.data.head? ≠ some ':' := by
  simp only [isLegalKey, Bool.and_eq_true, List.all_eq_true] at h
  intro hc
  rcases hd : k.data with _ | ⟨c, rest⟩
  · rw [hd] at hc; exact Option.noConfusion hc
  · rw [hd] at hc
    have hcc : c = ':' := by
      simpa using hc
    have := h.2 c (by rw [hd]; simp)
    rw [hcc] at this
    simp [isLegalKeyChar] at this

theorem validateMd_bin_ok (k : String) (b : List Nat)
    (hk : isLegalKey k = true) (hb : isBinaryKey k = true) :
    validateMd k (some (.bin b)) = .ok () := by
  rw [validateMd, if_neg (by simp [hk]), hb]
  simp

theorem validateMd_str_ok (k : String) (s : String)
    (hk : isLegalKey k = true) (hb : isBinaryKey k = false)
    (hs : isLegalNonBinaryValue s = true) :
    validateMd k (some (.str s)) = .ok () := by
  rw [validateMd, if_neg (by simp [hk]), hb]
  simp [hs]

theorem addToRepr_fresh (md : MetadataM) (k : String) (v : MetaVal)
    (h : k ∉ md.map Prod.fst) : addToRepr md k v = md ++ [(k, [v])] := by
  induction md with
  | nil => rfl
  | cons e rest ih =>
    rcases e with ⟨k0, vs⟩
    simp only [List.map_cons, List.mem_cons, not_or] at h
    rw [addToRepr, if_neg (fun hh => h.1 hh.symm), ih h.2]
    rfl

theorem addToRepr_append_last (md : MetadataM) (k : String) (cur : List MetaVal)
    (v : MetaVal) (h : k ∉ md.map Prod.fst) :
    addToRepr (md ++ [(k, cur)]) k v = md ++ [(k, cur ++ [v])] := by
  induction md with
  | nil => simp [addToRepr]
  | cons e rest ih =>
    rcases e with ⟨k0, vs⟩
    simp only [List.map_cons, List.mem_cons, not_or] at h
    rw [List.cons_append, addToRepr, if_neg (fun hh => h.1 hh.symm), ih h.2]
    rfl

theorem addAllOrStop_snoc (k : String) (hk : isLegalKey k = true) :
    ∀ (vs : List MetaVal) (md : MetadataM) (cur : List MetaVal),
      k ∉ md.map Prod.fst →
      (∀ v ∈ vs, validateMd k (some v) = .ok ()) →
      addAllOrStop (md ++ [(k, cur)]) k vs = md ++ [(k, cur ++ vs)] := by
  intro vs
  induction vs with
  | nil => intro md cur _ _; simp [addAllOrStop]
  | cons v rest ih =>
    intro md cur hfresh hval
    rw [addAllOrStop, mdAdd, normalizeKey_legal k hk, hval v (by simp)]
    simp only
    rw [addToRepr_append_last md k cur v hfresh,
      ih md (cur ++ [v]) hfresh (fun x hx => hval x (by simp [hx])),
      List.append_assoc]
    rfl

theorem addAllOrStop_fresh (k : String) (vs : List MetaVal) (md : MetadataM)
    (hk : isLegalKey k = true) (hfresh : k ∉ md.map Prod.fst) (hne : vs ≠ [])
    (hval : ∀ v ∈ vs, validateMd k (some v) = .ok ()) :
    addAllOrStop md k vs = md ++ [(k, vs)] := by
  rcases vs with _ | ⟨v, rest⟩
  · exact absurd rfl hne
  · rw [addAllOrStop, mdAdd, normalizeKey_legal k hk, hval v (by simp)]
    simp only
    rw [addToRepr_fresh md k v hfresh,
      addAllOrStop_snoc k hk rest md [v] hfresh (fun x hx => hval x (by simp [hx]))]
    rfl

theorem decode_encode_bin (vs : List MetaVal) (h : ∀ v ∈ vs, metaValIsLegalBin v = true) :
    (vs.map encodeMetaVal).map (fun v => MetaVal.bin (base64decode v)) = vs := by
  induction vs with
  | nil => rfl
  | cons v rest ih =>
    have hv := h v (by simp)
    rcases v with s | b
    · simp [metaValIsLegalBin] at hv
    · simp only [metaValIsLegalBin, List.all_eq_true, decide_eq_true_eq] at hv
      rw [List.map_cons, List.map_cons, encodeMetaVal,
        base64_roundtrip b hv, ih (fun x hx => h x (by simp [hx]))]

theorem decode_encode_str (vs : List MetaVal) (h : ∀ v ∈ vs, metaValIsLegalStr v = true) :
    (vs.map encodeMetaVal).map MetaVal.str = vs := by
  induction vs with
  | nil => rfl
  | cons v rest ih =>
    have hv := h v (by simp)
    rcases v with s | b
    · rw [List.map_cons, List.map_cons, encodeMetaVal,
        ih (fun x hx => h x (by simp [hx]))]
    · simp [metaValIsLegalStr] at hv

theorem fromHeaders_fold (md : MetadataM) :
    ∀ acc : MetadataM,
      (md.map Prod.fst).Nodup →
      md.all (fun e => legalEntry e.1 e.2) = true →
      (∀ e ∈ md, e.1 ∉ acc.map Prod.fst) →
      (md.map (fun e => (e.1, HeaderVal.arr (e.2.map encodeMetaVal)))).foldl
        fromHeadersStep acc = acc ++ md := by
  induction md with
  | nil => intro acc _ _ _; simp
  | cons e rest ih =>
    intro acc hnodup hlegal hfresh
    rcases e with ⟨k, vs⟩
    rw [List.map_cons, List.nodup_cons] at hnodup
    obtain ⟨hknotin, hnodrest⟩ := hnodup
    rw [List.all_cons, Bool.and_eq_true] at hlegal
    obtain ⟨hleg, hlegrest⟩ := hlegal
    simp only [legalEntry, Bool.and_eq_true] at hleg
    obtain ⟨⟨hk, hvne⟩, hvals⟩ := hleg
    have hvne2 : vs ≠ [] := fun hn => by subst hn; simp at hvne
    rw [List.map_cons, List.foldl_cons]
    have hstep : fromHeadersStep acc (k, .arr (vs.map encodeMetaVal)) =
        acc ++ [(k, vs)] := by
      rw [fromHeadersStep, if_neg (by simpa using legalKey_head_not_colon k hk)]
      simp only
      rcases hbk : isBinaryKey k with _ | _
      · rw [hbk] at hvals
        rw [if_neg (by simp)] at hvals ⊢
        rw [decode_encode_str vs (List.all_eq_true.mp hvals)]
        exact addAllOrStop_fresh k vs acc hk (hfresh (k, vs) (by simp)) hvne2
          (fun v hv => by
            have hvleg := (List.all_eq_true.mp hvals) v hv
            rcases v with sv | bv
            · exact validateMd_str_ok k sv hk hbk
                (by simpa [metaValIsLegalStr] using hvleg)
            · simp [metaValIsLegalStr] at hvleg)
      · rw [hbk] at hvals
        rw [if_pos rfl] at hvals ⊢
        rw [decode_encode_bin vs (List.all_eq_true.mp hvals)]
        exact addAllOrStop_fresh k vs acc hk (hfresh (k, vs) (by simp)) hvne2
          (fun v hv => by
            have hvleg := (List.all_eq_true.mp hvals) v hv
            rcases v with sv | bv
            · simp [metaValIsLegalBin] at hvleg
            · exact validateMd_bin_ok k bv hk hbk)
    rw [hstep]
    have hrest := ih (acc ++ [(k, vs)]) hnodrest hlegrest
      (by
        intro x hx hmem
        rw [List.map_append] at hmem
        rcases List.mem_append.mp hmem with hs | hs
        · exact hfresh x (List.mem_cons_of_mem _ hx) hs
        · simp only [List.map_cons, List.map_nil, List.mem_singleton] at hs
          have hmm : x.1 ∈ List.map Prod.fst rest := List.mem_map_of_mem Prod.fst hx
          rw [hs] at hmm
          exact hknotin hmm)
    rw [hrest, List.append_assoc]
    rfl

/-- Claim C2, amended: for every legal metadata object (legal lowercase
keys, printable string values on ordinary keys, byte Buffers on -bin
keys, several values per key allowed) none of whose keys is the
proto-surrounded-by-double-underscores name — the one legal key whose JS
object assignment in toHttp2Headers creates no own property — decoding
the encoded HTTP/2 header form gives the object back:
fromHttp2Headers (toHttp2Headers m) = m. An entry under that excluded
key is silently lost by the encoding (see the counterexample). -/
theorem metadata_roundtrip (md : MetadataM) (h : LegalMetadata md)
    (hp : ∀ e ∈ md, e.1 ≠ "__proto__") :
    fromHttp2Headers (toHttp2Headers md) = md := by
  rcases h with ⟨hnodup, hlegal⟩
  rw [fromHttp2Headers, toHttp2Headers_no_proto md hp]
  have := fromHeaders_fold md [] hnodup hlegal (by simp)
  simpa using this

/-- Witness for C2: a binary key with two Buffer values (one with bytes
over 127) and an ordinary key with two printable values round-trip. -/
theorem metadata_roundtrip_witness :
    LegalMetadata [("key-bin", [.bin [0, 255, 77], .bin [1, 2]]),
                   ("key.x", [.str "v", .str "w x"])] ∧
    fromHttp2Headers (toHttp2Headers
        [("key-bin", [.bin [0, 255, 77], .bin [1, 2]]),
         ("key.x", [.str "v", .str "w x"])]) =
      [("key-bin", [.bin [0, 255, 77], .bin [1, 2]]),
       ("key.x", [.str "v", .str "w x"])] :=
  ⟨by decide, metadata_roundtrip _ (by decide) (by decide)⟩

/-- Counterexample to C2 as claimed: the proto key matches
LEGAL_KEY_REGEX, so the metadata object is legal and Metadata.add
accepts the entry, yet the object assignment in toHttp2Headers creates
no own property for it — the encoded header object is empty — and the
decode of the encode returns the empty metadata, losing the entry. -/
theorem metadata_proto_key_counterexample :
    isLegalKey "__proto__" = true ∧
      LegalMetadata [("__proto__", [MetaVal.str "v"])] ∧
      mdAdd [] "__proto__" (MetaVal.str "v") = .ok [("__proto__", [MetaVal.str "v"])] ∧
      toHttp2Headers [("__proto__", [MetaVal.str "v"])] = [] ∧
      fromHttp2Headers (toHttp2Headers [("__proto__", [MetaVal.str "v"])]) ≠
        [("__proto__", [MetaVal.str "v"])] :=
  ⟨by decide, by decide, rfl, by decide, by decide⟩

/-! ### server-call.ts: Http2ServerCallStream (claims C1, C4, C9, C10)

The call state carries the cancelled flag, the pending deadline timer (the
armed timeout value), the status object mutated by sendError and
sendUnaryMessage, whether response headers were sent, and the trace of
frames emitted on the underlying HTTP/2 stream. A JS error or response
object is a record of optional own properties (hasOwnProperty is isSome;
the integer codes modeled always satisfy Number.isInteger). -/

abbrev Buffer := List Nat

structure ServiceErrorO where
  message : Option String := none
  code : Option Int := none
  details : Option String := none
  metadata : Option MetadataM := none
deriving DecidableEq, Repr

structure ServerStatus where
  code : Int := statusOK
  details : String := "OK"
  metadata : Option MetadataM := none
deriving DecidableEq, Repr

inductive StreamEmission where
  | respondHeaders : List (String × HeaderVal) → StreamEmission
  | dataFrame : Buffer → StreamEmission
  | trailers : Int → String → List (String × HeaderVal) → StreamEmission
  | rawEnd : StreamEmission
deriving DecidableEq, Repr

/-- The defaultResponseHeaders constant: grpc-accept-encoding and
grpc-encoding identity, status 200, content-type application/grpc+proto.
A respondHeaders emission carries the custom metadata headers assigned
over these defaults. -/
def defaultResponseHeaders : List (String × String) :=
  [("grpc-accept-encoding", "identity"), ("grpc-encoding", "identity"),
   (":status", "200"), ("content-type", "application/grpc+proto")]

structure ServerCall where
  cancelled : Bool := false
  deadlineTimer : Option Int := none
  status : ServerStatus := {}
  headersSent : Bool := false
  emissions : List StreamEmission := []
deriving DecidableEq, Repr

/-- JS encodeURI restricted to ASCII input (the details strings used are
ASCII): unreserved and reserved characters pass through, everything else
is percent-encoded with uppercase hex. -/
def encodeURIKeepCodes : List Nat :=
  [59, 47, 63, 58, 64, 38, 61, 43, 36, 44, 35, 45, 95, 46, 33, 126, 42, 39, 40, 41]

def isEncodeURIUnescaped (c : Char) : Bool :=
  (65 ≤ c.toNat && c.toNat ≤ 90) || (97 ≤ c.toNat && c.toNat ≤ 122) ||
    (48 ≤ c.toNat && c.toNat ≤ 57) || encodeURIKeepCodes.contains c.toNat

def hexDigitChar (n : Nat) : Char :=
  if n < 10 then Char.ofNat (48 + n) else Char.ofNat (55 + n)

def encodeURIChar (c : Char) : List Char :=
  if isEncodeURIUnescaped c then [c]
  else [Char.ofNat 37, hexDigitChar (c.toNat / 16 % 16), hexDigitChar (c.toNat % 16)]

def encodeURI (s : String) : String :=
  String.mk ((s.data.map encodeURIChar).flatten)

def metadataToCustomHeaders : Option MetadataM → List (String × HeaderVal)
  | some md => toHttp2Headers md
  | none => []

/-- Http2ServerCallStream.sendMetadata: a no-op once headers went out;
otherwise respond with the default headers plus the custom metadata and
register the wantTrailers callback (the trailers content is produced at
end time from the status then current, see endOp). -/
def sendMetadataOp (s : ServerCall) (custom : Option MetadataM) : ServerCall :=
  if s.headersSent then s
  else { s with headersSent := true,
                emissions := s.emissions ++ [.respondHeaders (metadataToCustomHeaders custom)] }

/-- The trailers assembled in the wantTrailers callback: grpc-status from
the status code, grpc-message URI-encoded, plus the status metadata. -/
def trailersOf (st : ServerStatus) : StreamEmission :=
  .trailers st.code (encodeURI st.details) (metadataToCustomHeaders st.metadata)

/-- Http2ServerCallStream.write: dropped when cancelled, else sends
headers if needed and writes a DATA frame. -/
def writeOp (s : ServerCall) (chunk : Buffer) : ServerCall :=
  if s.cancelled = true then s
  else
    let s1 := sendMetadataOp s none
    { s1 with emissions := s1.emissions ++ [.dataFrame chunk] }

/-- Http2ServerCallStream.end: dropped when cancelled, else clears the
deadline timer, sends headers if needed, writes the optional payload and
ends the stream, upon which the trailers are emitted. -/
def endOp (s : ServerCall) (payload : Option Buffer) : ServerCall :=
  if s.cancelled = true then s
  else
    let s1 : ServerCall := { s with deadlineTimer := none }
    let s2 := sendMetadataOp s1 none
    { s2 with emissions := s2.emissions ++
        ((payload.map StreamEmission.dataFrame).toList ++ [trailersOf s2.status]) }

/-- Http2ServerCallStream.sendError: details from the error message (or
Unknown Error), the error code when it is an own integer property (then
own details override), else the fallback code argument; own metadata
replaces the status metadata; then end. -/
def sendErrorStatus (prev : ServerStatus) (error : ServiceErrorO) (code : Int) :
    ServerStatus :=
  let d1 := match error.message with
    | some m => m
    | none => "Unknown Error"
  let st1 := { prev with details := d1 }
  let st2 := match error.code with
    | some ec =>
      match error.details with
      | some dd => { st1 with code := ec, details := dd }
      | none => { st1 with code := ec }
    | none => { st1 with code := code }
  match error.metadata with
  | some m => { st2 with metadata := some m }
  | none => st2

def sendErrorOp (s : ServerCall) (error : ServiceErrorO) (code : Int := statusUNKNOWN) :
    ServerCall :=
  endOp { s with status := sendErrorStatus s.status error code } none

/-- writeUInt32BE: the four big-endian bytes of a 32-bit length. -/
def writeUInt32BE (n : Nat) : List Nat :=
  [n / 16777216 % 256, n / 65536 % 256, n / 256 % 256, n % 256]

/-- Http2ServerCallStream.serializeMessage: the serialized bytes behind a
5-byte prefix, flag 0 then the big-endian length. The application
serializer may throw, hence Except. -/
def serializeMessageOp (serialize : Buffer → Except String Buffer) (value : Buffer) :
    Except String Buffer :=
  match serialize value with
  | .error e => .error e
  | .ok messageBuffer => .ok (0 :: writeUInt32BE messageBuffer.length ++ messageBuffer)

/-- Http2ServerCallStream.sendUnaryMessage: with a non-null error, the
trailing metadata argument is first assigned into the error metadata and
the error sent; otherwise the response is serialized (a throw becomes
sendError with INTERNAL), the metadata argument becomes the status
metadata, and the call ends with the response payload. -/
def sendUnaryMessageOp (s : ServerCall) (serialize : Buffer → Except String Buffer)
    (err : Option ServiceErrorO) (value : Buffer) (metadata : Option MetadataM) :
    ServerCall :=
  match err with
  | some e =>
    let e2 := match metadata with
      | some md => { e with metadata := some md }
      | none => e
    sendErrorOp s e2
  | none =>
    match serializeMessageOp serialize value with
    | .error m => sendErrorOp s { message := some m } statusINTERNAL
    | .ok response =>
      let s1 := match metadata with
        | some md => { s with status := { s.status with metadata := some md } }
        | none => s
      endOp s1 (some response)

/-! #### Deadline header parsing (claim C4)

DEADLINE_REGEX in the source has no anchors, so String.match finds the
leftmost substring of the form digits(1..8), optional whitespace, one
unit letter, with the usual backtracking semantics: at a given start the
digit run is consumed greedily (an overlong run of more than 8 digits can
never be repaired by backtracking, since the character after fewer digits
is still a digit), whitespace is skipped, and a unit letter must follow.
Character classes are ASCII here. -/

def isDigitChar (c : Char) : Bool :=
  48 ≤ c.toNat && c.toNat ≤ 57

def isSpaceChar (c : Char) : Bool :=
  c.toNat == 32 || c.toNat == 9 || c.toNat == 10 || c.toNat == 11 ||
    c.toNat == 12 || c.toNat == 13

def isDeadlineUnitChar (c : Char) : Bool :=
  c.toNat == 72 || c.toNat == 77 || c.toNat == 83 || c.toNat == 109 ||
    c.toNat == 117 || c.toNat == 110

/-- One attempt of the regex engine at a fixed start position. -/
def tryDeadlineMatchAt (l : List Char) : Option (List Char × Char) :=
  let digits := l.takeWhile isDigitChar
  if digits.length = 0 then none
  else if 8 < digits.length then none
  else
    match (l.dropWhile isDigitChar).dropWhile isSpaceChar with
    | [] => none
    | u :: _ => if isDeadlineUnitChar u then some (digits, u) else none

/-- String.match with the unanchored DEADLINE_REGEX: the leftmost
successful attempt wins; null when no position matches. -/
def deadlineMatch : List Char → Option (List Char × Char)
  | [] => none
  | c :: rest =>
    match tryDeadlineMatchAt (c :: rest) with
    | some m => some m
    | none => deadlineMatch rest

/-- The deadlineUnitsToMs table. The source stores JS numbers (the u and n
entries are IEEE doubles); the embedding uses exact rationals. -/
def deadlineUnitsToMs : Char → Rat
  | 'H' => 3600000
  | 'M' => 60000
  | 'S' => 1000
  | 'm' => 1
  | 'u' => 1 / 1000
  | 'n' => 1 / 1000000
  | _ => 0

/-- Number(digits) for the matched 1..8 digit group. -/
def digitsToNat (l : List Char) : Nat :=
  l.foldl (fun acc c => acc * 10 + (c.toNat - 48)) 0

/-- The bitwise-or-zero coercion x | 0 (ToInt32) on the nonnegative
timeout value: truncate, then wrap into signed 32-bit range. -/
def jsToInt32 (q : Rat) : Int :=
  (q.floor + 2147483648) % 4294967296 - 2147483648

/-- Metadata.get with an already-normalized key. -/
def mdGet (md : MetadataM) (key : String) : List MetaVal :=
  match md.find? (fun e => e.1 == normalizeKey key) with
  | some e => e.2
  | none => []

/-- Metadata.remove with an already-normalized key. -/
def mdRemove (md : MetadataM) (key : String) : MetadataM :=
  md.filter (fun e => !(e.1 == normalizeKey key))

/-- toString on a metadata value; the grpc-timeout key is not binary, so
its values are strings. -/
def metaValToString : MetaVal → String
  | .str s => s
  | .bin _ => ""

/-- Http2ServerCallStream.receiveMetadata: decode the headers, and when a
grpc-timeout header is present run the regex on its first value; no match
sends OUT_OF_RANGE Invalid deadline and yields no metadata (the method
returns undefined); a match arms the timer with the converted value and
strips the header. -/
def receiveMetadataOp (s : ServerCall) (headers : List (String × HeaderVal)) :
    ServerCall × Option MetadataM :=
  let metadata := fromHttp2Headers headers
  match mdGet metadata "grpc-timeout" with
  | [] => (s, some metadata)
  | v :: _ =>
    match deadlineMatch (metaValToString v).data with
    | none =>
      (sendErrorOp s { message := some "Invalid deadline" } statusOUT_OF_RANGE, none)
    | some (digits, unit) =>
      let timeout := jsToInt32 (digitsToNat digits * deadlineUnitsToMs unit)
      ({ s with deadlineTimer := some timeout }, some (mdRemove metadata "grpc-timeout"))

/-! #### Server stream dispatch (server.ts, claim C1) -/

structure HandlerInfo where
  htype : String
deriving DecidableEq, Repr

/-- The unimplementedStatusResponse constant of server.ts: code
UNIMPLEMENTED with the fixed details string. -/
def unimplementedStatusResponse : ServiceErrorO :=
  { code := some statusUNIMPLEMENTED,
    details := some "The server does not implement this method" }

def headersGet (headers : List (String × HeaderVal)) (key : String) : Option HeaderVal :=
  (headers.find? (fun e => e.1 == key)).map Prod.snd

/-- headers[HTTP2_HEADER_PATH] as string. -/
def headerPathOf (headers : List (String × HeaderVal)) : String :=
  match headersGet headers ":path" with
  | some (.single p) => p
  | _ => ""

/-- The stream listener of Server._setupHandlers: a not-started server
ends the stream bare; a missing handler for the path throws
unimplementedStatusResponse, and the catch block then assigns code
INTERNAL into the caught object before sendError on a fresh call; a found
handler gets a fresh call, receiveMetadata runs, and the per-type
dispatch takes over (returned here as the handler and metadata). -/
def serverOnStream (started : Bool) (handlers : List (String × HandlerInfo))
    (headers : List (String × HeaderVal)) :
    ServerCall × Option (HandlerInfo × Option MetadataM) :=
  if started = false then
    ({ emissions := [.rawEnd] }, none)
  else
    match handlers.find? (fun e => e.1 == headerPathOf headers) with
    | none =>
      let err := { unimplementedStatusResponse with code := some statusINTERNAL }
      (sendErrorOp {} err, none)
    | some e =>
      let r := receiveMetadataOp {} headers
      (r.1, some (e.2, r.2))

/-- handleExpiredDeadline: sendError with DEADLINE_EXCEEDED, then the
cancelled flag is set (in this order in the source). -/
def handleExpiredDeadlineOp (s : ServerCall) : ServerCall :=
  let s1 := sendErrorOp s { message := some "Deadline exceeded" } statusDEADLINE_EXCEEDED
  { s1 with cancelled := true }

/-- The close listener installed by the constructor: a peer RST_STREAM
with NGHTTP2_CANCEL (code 8) sets the cancelled flag. -/
def streamCloseOp (s : ServerCall) (rstCode : Nat) : ServerCall :=
  if rstCode = 8 then { s with cancelled := true } else s

/-! #### Theorems about the server call stream (claims C9, C10, C1) -/

/-- The operations an application can drive on a server call after
dispatch. -/
inductive ServerOp where
  | write : Buffer → ServerOp
  | endCall : Option Buffer → ServerOp
  | sendMetadata : Option MetadataM → ServerOp
  | sendError : ServiceErrorO → Int → ServerOp
  | sendUnaryMessage : Option ServiceErrorO → Buffer → Option MetadataM → ServerOp
deriving Repr

def runServerOp (serialize : Buffer → Except String Buffer) (s : ServerCall) :
    ServerOp → ServerCall
  | .write c => writeOp s c
  | .endCall p => endOp s p
  | .sendMetadata m => sendMetadataOp s m
  | .sendError e c => sendErrorOp s e c
  | .sendUnaryMessage e v m => sendUnaryMessageOp s serialize e v m

def runServerOps (serialize : Buffer → Except String Buffer) (s : ServerCall)
    (ops : List ServerOp) : ServerCall :=
  ops.foldl (runServerOp serialize) s

/-- DATA frames and trailers on the underlying stream. -/
def isDataOrTrailers : StreamEmission → Bool
  | .dataFrame _ => true
  | .trailers _ _ _ => true
  | _ => false

theorem runServerOp_cancelled (serialize : Buffer → Except String Buffer)
    (s : ServerCall) (op : ServerOp) (h : s.cancelled = true) :
    (runServerOp serialize s op).cancelled = true ∧
      (runServerOp serialize s op).emissions.filter isDataOrTrailers =
        s.emissions.filter isDataOrTrailers := by
  cases op with
  | write c => simp [runServerOp, writeOp, h]
  | endCall p => simp [runServerOp, endOp, h]
  | sendMetadata m =>
    by_cases hh : s.headersSent
    · simp [runServerOp, sendMetadataOp, hh, h]
    · simp [runServerOp, sendMetadataOp, hh, h, List.filter_append, isDataOrTrailers]
  | sendError e c =>
    simp [runServerOp, sendErrorOp, endOp, h]
  | sendUnaryMessage e v m =>
    cases e with
    | some e0 => simp [runServerOp, sendUnaryMessageOp, sendErrorOp, endOp, h]
    | none =>
      rcases hs : serializeMessageOp serialize v with m0 | r
      · simp [runServerOp, sendUnaryMessageOp, hs, sendErrorOp, endOp, h]
      · cases m with
        | some md => simp [runServerOp, sendUnaryMessageOp, hs, endOp, h]
        | none => simp [runServerOp, sendUnaryMessageOp, hs, endOp, h]

theorem runServerOps_cancelled (serialize : Buffer → Except String Buffer) :
    ∀ (ops : List ServerOp) (s : ServerCall), s.cancelled = true →
      (runServerOps serialize s ops).cancelled = true ∧
        (runServerOps serialize s ops).emissions.filter isDataOrTrailers =
          s.emissions.filter isDataOrTrailers := by
  intro ops
  induction ops with
  | nil => intro s h; exact ⟨h, rfl⟩
  | cons op rest ih =>
    intro s h
    obtain ⟨h1, h2⟩ := runServerOp_cancelled serialize s op h
    obtain ⟨h3, h4⟩ := ih (runServerOp serialize s op) h1
    refine ⟨h3, ?_⟩
    rw [show runServerOps serialize s (op :: rest) =
        runServerOps serialize (runServerOp serialize s op) rest from rfl, h4, h2]

/-- Claim C9: once a server call is cancelled (flag set by a peer
RST_STREAM with CANCEL or by deadline expiry), write and end are literal
no-ops, and across any further sequence of application operations the
cancelled flag stays set and no DATA frame and no trailers are emitted on
the underlying HTTP/2 stream. -/
theorem server_call_cancelled_no_further_output
    (serialize : Buffer → Except String Buffer) (s : ServerCall)
    (h : s.cancelled = true) :
    (∀ chunk, writeOp s chunk = s) ∧
    (∀ payload, endOp s payload = s) ∧
    (∀ ops, (runServerOps serialize s ops).cancelled = true ∧
      (runServerOps serialize s ops).emissions.filter isDataOrTrailers =
        s.emissions.filter isDataOrTrailers) :=
  ⟨fun c => by simp [writeOp, h],
   fun p => by simp [endOp, h],
   fun ops => runServerOps_cancelled serialize ops s h⟩

/-- Witness for C9: a cancelled call (as the CANCEL close listener leaves
it) absorbs writes, ends and unary replies without any stream output. -/
theorem server_call_cancelled_no_further_output_witness :
    (streamCloseOp {} 8).cancelled = true ∧
    writeOp (streamCloseOp {} 8) [1, 2] = streamCloseOp {} 8 ∧
    endOp (streamCloseOp {} 8) none = streamCloseOp {} 8 ∧
    (runServerOps (fun b => .ok b) (streamCloseOp {} 8)
        [.write [1], .sendMetadata none, .endCall none,
         .sendUnaryMessage none [7] none]).emissions.filter isDataOrTrailers =
      (streamCloseOp {} 8).emissions.filter isDataOrTrailers := by
  have h := server_call_cancelled_no_further_output (fun b => .ok b)
    (streamCloseOp {} 8) (by rfl)
  exact ⟨by rfl, h.1 [1, 2], h.2.1 none,
    (h.2.2 [.write [1], .sendMetadata none, .endCall none,
      .sendUnaryMessage none [7] none]).2⟩

theorem sendMetadataOp_status (s : ServerCall) (custom : Option MetadataM) :
    (sendMetadataOp s custom).status = s.status := by
  by_cases h : s.headersSent <;> simp [sendMetadataOp, h]

theorem endOp_status (s : ServerCall) (p : Option Buffer) :
    (endOp s p).status = s.status := by
  by_cases h : s.cancelled <;> simp [endOp, h, sendMetadataOp_status]

theorem endOp_getLast (s : ServerCall) (p : Option Buffer) (h : s.cancelled = false) :
    (endOp s p).emissions.getLast? = some (trailersOf s.status) := by
  rw [endOp, if_neg (by simp [h])]
  simp only
  rw [← List.append_assoc, List.getLast?_concat, sendMetadataOp_status]

theorem sendErrorStatus_metadata (prev : ServerStatus) (e : ServiceErrorO)
    (code : Int) (md : MetadataM) (he : e.metadata = some md) :
    (sendErrorStatus prev e code).metadata = some md := by
  simp only [sendErrorStatus, he]

theorem sendErrorOp_metadata_trailer (s : ServerCall) (e2 : ServiceErrorO) (code : Int)
    (md : MetadataM) (hc : s.cancelled = false) (he : e2.metadata = some md) :
    (sendErrorOp s e2 code).status.metadata = some md ∧
    ∃ c dts, (sendErrorOp s e2 code).emissions.getLast? =
      some (.trailers c dts (toHttp2Headers md)) := by
  have hcanc : ({ s with status := sendErrorStatus s.status e2 code } :
      ServerCall).cancelled = false := hc
  constructor
  · rw [sendErrorOp, endOp_status]
    exact sendErrorStatus_metadata _ _ _ md he
  · rw [sendErrorOp, endOp_getLast _ _ hcanc]
    refine ⟨(sendErrorStatus s.status e2 code).code,
      encodeURI (sendErrorStatus s.status e2 code).details, ?_⟩
    have hstm := sendErrorStatus_metadata s.status e2 code md he
    show some (trailersOf (sendErrorStatus s.status e2 code)) = _
    rw [trailersOf, hstm]
    rfl

/-- Claim C10: sendUnaryMessage with a non-null error and a trailing
metadata argument assigns the argument into the error metadata before
sendError, so the argument (not any metadata previously attached to the
error) ends up as the status metadata and in the emitted trailers; with a
null error the argument becomes the status metadata directly and the
trailers carry it. -/
theorem sendUnaryMessage_trailer_metadata (s : ServerCall)
    (serialize : Buffer → Except String Buffer) (e : ServiceErrorO)
    (value : Buffer) (md : MetadataM) (framed : Buffer)
    (hc : s.cancelled = false)
    (hser : serializeMessageOp serialize value = .ok framed) :
    ((sendUnaryMessageOp s serialize (some e) value (some md)).status.metadata = some md ∧
      ∃ c dts, (sendUnaryMessageOp s serialize (some e) value (some md)).emissions.getLast? =
        some (.trailers c dts (toHttp2Headers md))) ∧
    ((sendUnaryMessageOp s serialize none value (some md)).status.metadata = some md ∧
      ∃ c dts, (sendUnaryMessageOp s serialize none value (some md)).emissions.getLast? =
        some (.trailers c dts (toHttp2Headers md))) := by
  constructor
  · exact sendErrorOp_metadata_trailer s { e with metadata := some md } statusUNKNOWN md hc rfl
  · have hrun : sendUnaryMessageOp s serialize none value (some md) =
        endOp { s with status := { s.status with metadata := some md } } (some framed) := by
      simp only [sendUnaryMessageOp, hser]
    rw [hrun]
    have hcanc2 : ({ s with status := { s.status with metadata := some md } } :
        ServerCall).cancelled = false := hc
    constructor
    · rw [endOp_status]
    · rw [endOp_getLast _ _ hcanc2]
      exact ⟨_, _, rfl⟩

/-- Witness for C10: an error carrying other metadata plus a trailer
argument; the argument wins in the status and in the trailers. -/
theorem sendUnaryMessage_trailer_metadata_witness :
    ((sendUnaryMessageOp {} (fun b => .ok b)
        (some { metadata := some [("old-key", [.str "old"])] }) [5]
        (some [("new-key", [.str "new"])])).status.metadata =
      some [("new-key", [.str "new"])] ∧
      ∃ c dts, (sendUnaryMessageOp {} (fun b => .ok b)
          (some { metadata := some [("old-key", [.str "old"])] }) [5]
          (some [("new-key", [.str "new"])])).emissions.getLast? =
        some (.trailers c dts (toHttp2Headers [("new-key", [.str "new"])]))) ∧
    ((sendUnaryMessageOp {} (fun b => .ok b) none [5]
        (some [("new-key", [.str "new"])])).status.metadata =
      some [("new-key", [.str "new"])] ∧
      ∃ c dts, (sendUnaryMessageOp {} (fun b => .ok b) none [5]
          (some [("new-key", [.str "new"])])).emissions.getLast? =
        some (.trailers c dts (toHttp2Headers [("new-key", [.str "new"])]))) :=
  sendUnaryMessage_trailer_metadata {} (fun b => .ok b)
    { metadata := some [("old-key", [.str "old"])] } [5]
    [("new-key", [.str "new"])] (0 :: writeUInt32BE 1 ++ [5]) rfl rfl

/-- Claim C1 (evaluation of the code at the failing input): with no
handler registered for the path, the started server responds with the
default headers and trailers carrying grpc-status INTERNAL (13) and the
URI-encoded details The server does not implement this method; the claim
and the spec say UNIMPLEMENTED (12), but the catch block overwrites the
thrown unimplementedStatusResponse code with INTERNAL. -/
theorem server_missing_handler_trailer_status :
    (serverOnStream true [] [(":path", .single "/unknown.Svc/M")]).1.status.code =
        statusINTERNAL ∧
    (serverOnStream true [] [(":path", .single "/unknown.Svc/M")]).1.status.details =
        "The server does not implement this method" ∧
    (serverOnStream true [] [(":path", .single "/unknown.Svc/M")]).1.emissions =
      [.respondHeaders [],
       .trailers statusINTERNAL
         (encodeURI "The server does not implement this method") []] ∧
    unimplementedStatusResponse.code = some statusUNIMPLEMENTED ∧
    statusINTERNAL ≠ statusUNIMPLEMENTED :=
  ⟨rfl, rfl, rfl, rfl, by decide⟩

/-! #### Theorems about grpc-timeout parsing (claim C4) -/

theorem isSpaceChar_not_digit (c : Char) (h : isSpaceChar c = true) :
    isDigitChar c = false := by
  simp only [isSpaceChar, Bool.or_eq_true, beq_iff_eq] at h
  simp only [isDigitChar, Bool.and_eq_true, decide_eq_true_eq, Bool.and_eq_false_iff,
    decide_eq_false_iff_not, not_le]
  omega

theorem isUnitChar_not_digit (c : Char) (h : isDeadlineUnitChar c = true) :
    isDigitChar c = false := by
  simp only [isDeadlineUnitChar, Bool.or_eq_true, beq_iff_eq] at h
  simp only [isDigitChar, Bool.and_eq_false_iff, decide_eq_false_iff_not, not_le]
  omega

theorem isUnitChar_not_space (c : Char) (h : isDeadlineUnitChar c = true) :
    isSpaceChar c = false := by
  simp only [isDeadlineUnitChar, Bool.or_eq_true, beq_iff_eq] at h
  simp only [isSpaceChar, Bool.or_eq_false_iff, beq_eq_false_iff_ne, ne_eq]
  omega

theorem takeWhile_append_of_all (p : Char → Bool) (d x : List Char)
    (hd : ∀ c ∈ d, p c = true) :
    (d ++ x).takeWhile p = d ++ x.takeWhile p := by
  induction d with
  | nil => rfl
  | cons c cs ih =>
    rw [List.cons_append, List.takeWhile_cons_of_pos (hd c (by simp)),
      ih (fun a ha => hd a (by simp [ha])), List.cons_append]

theorem dropWhile_append_of_all (p : Char → Bool) (d x : List Char)
    (hd : ∀ c ∈ d, p c = true) :
    (d ++ x).dropWhile p = x.dropWhile p := by
  induction d with
  | nil => rfl
  | cons c cs ih =>
    rw [List.cons_append, List.dropWhile_cons_of_pos (hd c (by simp)),
      ih (fun a ha => hd a (by simp [ha]))]

/-- The acceptance condition of the unanchored regex at a fixed position:
the list opens with one to eight digits, then whitespace, then a unit
letter. -/
def DeadlineShape (l : List Char) : Prop :=
  ∃ d sp u post, l = d ++ (sp ++ u :: post) ∧ d ≠ [] ∧ d.length ≤ 8 ∧
    (∀ c ∈ d, isDigitChar c = true) ∧ (∀ c ∈ sp, isSpaceChar c = true) ∧
    isDeadlineUnitChar u = true

theorem tryDeadlineMatchAt_isSome_iff (l : List Char) :
    (tryDeadlineMatchAt l).isSome ↔ DeadlineShape l := by
  constructor
  · intro h
    rw [tryDeadlineMatchAt] at h
    split at h
    · simp at h
    · split at h
      · simp at h
      · split at h
        · simp at h
        · split at h
          · rename_i u post hrest hu
            refine ⟨l.takeWhile isDigitChar,
              (l.dropWhile isDigitChar).takeWhile isSpaceChar, u, post, ?_, ?_, ?_, ?_, ?_, hu⟩
            · have h1 : l = l.takeWhile isDigitChar ++ l.dropWhile isDigitChar :=
                (List.takeWhile_append_dropWhile isDigitChar l).symm
              have h2 : l.dropWhile isDigitChar =
                  (l.dropWhile isDigitChar).takeWhile isSpaceChar ++
                    (l.dropWhile isDigitChar).dropWhile isSpaceChar :=
                (List.takeWhile_append_dropWhile isSpaceChar (l.dropWhile isDigitChar)).symm
              rw [hrest] at h2
              rw [← h2, ← h1]
            · intro hnil
              simp_all
            · omega
            · exact fun c hc => List.mem_takeWhile_imp hc
            · exact fun c hc => List.mem_takeWhile_imp hc
          · simp at h
  · rintro ⟨d, sp, u, post, hdec, hdne, hd8, hddig, hspsp, hu⟩
    have htail_nodigit : (sp ++ u :: post).takeWhile isDigitChar = [] := by
      rcases sp with _ | ⟨c0, sp0⟩
      · rw [List.nil_append,
          List.takeWhile_cons_of_neg (by simp [isUnitChar_not_digit u hu])]
      · rw [List.cons_append,
          List.takeWhile_cons_of_neg (by simp [isSpaceChar_not_digit c0 (hspsp c0 (by simp))])]
    have htake : l.takeWhile isDigitChar = d := by
      rw [hdec, takeWhile_append_of_all _ _ _ hddig, htail_nodigit, List.append_nil]
    have hdrop : l.dropWhile isDigitChar = sp ++ u :: post := by
      rw [hdec, dropWhile_append_of_all _ _ _ hddig]
      rcases sp with _ | ⟨c0, sp0⟩
      · rw [List.nil_append,
          List.dropWhile_cons_of_neg (by simp [isUnitChar_not_digit u hu])]
      · rw [List.cons_append,
          List.dropWhile_cons_of_neg (by simp [isSpaceChar_not_digit c0 (hspsp c0 (by simp))])]
    have hdrop2 : (l.dropWhile isDigitChar).dropWhile isSpaceChar = u :: post := by
      rw [hdrop, dropWhile_append_of_all _ _ _ hspsp,
        List.dropWhile_cons_of_neg (by simp [isUnitChar_not_space u hu])]
    rw [tryDeadlineMatchAt]
    rw [htake, if_neg (by simp [hdne]), if_neg (by omega), hdrop2]
    show (if isDeadlineUnitChar u = true then some (d, u) else none).isSome = true
    rw [if_pos hu]
    rfl

theorem deadlineMatch_isSome_iff (l : List Char) :
    (deadlineMatch l).isSome ↔ ∃ pre suf, l = pre ++ suf ∧ DeadlineShape suf := by
  induction l with
  | nil =>
    simp only [deadlineMatch, Option.isSome_none, Bool.false_eq_true, false_iff]
    rintro ⟨pre, suf, hdec, d, sp, u, post, hsuf, -, -, -, -, -⟩
    have : ([] : List Char).length = (pre ++ suf).length := by rw [hdec]
    rw [hsuf] at this
    simp only [List.length_nil, List.length_append, List.length_cons] at this
    omega
  | cons c rest ih =>
    rw [deadlineMatch]
    rcases htry : tryDeadlineMatchAt (c :: rest) with _ | m
    · simp only
      rw [ih]
      constructor
      · rintro ⟨pre, suf, hdec, hshape⟩
        exact ⟨c :: pre, suf, by rw [List.cons_append, ← hdec], hshape⟩
      · rintro ⟨pre, suf, hdec, hshape⟩
        rcases pre with _ | ⟨c0, pre0⟩
        · rw [List.nil_append] at hdec
          have := (tryDeadlineMatchAt_isSome_iff (c :: rest)).mpr (hdec ▸ hshape)
          rw [htry] at this
          exact absurd this (by simp)
        · rw [List.cons_append] at hdec
          exact ⟨pre0, suf, (List.cons.injEq _ _ _ _).mp hdec |>.2, hshape⟩
    · simp only [Option.isSome_some, true_iff]
      exact ⟨[], c :: rest, rfl,
        (tryDeadlineMatchAt_isSome_iff (c :: rest)).mp (by rw [htry]; rfl)⟩

theorem receiveMetadataOp_eq_of_match (s : ServerCall)
    (headers : List (String × HeaderVal)) (v : String) (vrest : List MetaVal)
    (digits : List Char) (u : Char)
    (hget : mdGet (fromHttp2Headers headers) "grpc-timeout" = .str v :: vrest)
    (hsome : deadlineMatch v.data = some (digits, u)) :
    receiveMetadataOp s headers =
      ({ s with deadlineTimer := some (jsToInt32 (digitsToNat digits * deadlineUnitsToMs u)) },
        some (mdRemove (fromHttp2Headers headers) "grpc-timeout")) := by
  simp only [receiveMetadataOp, hget, metaValToString, hsome]

theorem receiveMetadataOp_eq_of_nomatch (s : ServerCall)
    (headers : List (String × HeaderVal)) (v : String) (vrest : List MetaVal)
    (hget : mdGet (fromHttp2Headers headers) "grpc-timeout" = .str v :: vrest)
    (hnone : deadlineMatch v.data = none) :
    receiveMetadataOp s headers =
      (sendErrorOp s { message := some "Invalid deadline" } statusOUT_OF_RANGE, none) := by
  simp only [receiveMetadataOp, hget, metaValToString, hnone]

theorem jsToInt32_natCast (n : Nat) (h : n < 2147483648) : jsToInt32 (n : Rat) = n := by
  rw [jsToInt32]
  have hf : ((n : Rat)).floor = n := by
    rw [Rat.floor_def']
    simp
  rw [hf]
  omega

/-- Claim C4 (amended): the server parses the grpc-timeout header with the
UNANCHORED regex of the source; a header value is accepted exactly when
some substring of it has the shape digits(1..8), whitespace, unit letter,
the leftmost match being used; an accepted value arms the timer with the
matched digits converted through the unit table and coerced with the
bitwise or-zero truncation, and strips the header from the returned
metadata; a value with no matching substring ends the call with
OUT_OF_RANGE and details Invalid deadline. -/
theorem grpc_timeout_parsing (s : ServerCall) (headers : List (String × HeaderVal))
    (v : String) (vrest : List MetaVal)
    (hget : mdGet (fromHttp2Headers headers) "grpc-timeout" = .str v :: vrest) :
    ((deadlineMatch v.data).isSome ↔
      ∃ pre suf, v.data = pre ++ suf ∧ DeadlineShape suf) ∧
    (deadlineMatch v.data = none →
      (receiveMetadataOp s headers).1.status.code = statusOUT_OF_RANGE ∧
      (receiveMetadataOp s headers).1.status.details = "Invalid deadline" ∧
      (receiveMetadataOp s headers).2 = none) ∧
    (∀ digits u, deadlineMatch v.data = some (digits, u) →
      (receiveMetadataOp s headers).1.deadlineTimer =
        some (jsToInt32 (digitsToNat digits * deadlineUnitsToMs u)) ∧
      (receiveMetadataOp s headers).2 =
        some (mdRemove (fromHttp2Headers headers) "grpc-timeout")) ∧
    (deadlineUnitsToMs 'H' = 3600000 ∧ deadlineUnitsToMs 'M' = 60000 ∧
      deadlineUnitsToMs 'S' = 1000 ∧ deadlineUnitsToMs 'm' = 1 ∧
      deadlineUnitsToMs 'u' = 1 / 1000 ∧ deadlineUnitsToMs 'n' = 1 / 1000000) := by
  refine ⟨deadlineMatch_isSome_iff v.data, ?_, ?_, rfl, rfl, rfl, rfl, rfl, rfl⟩
  · intro hnone
    rw [receiveMetadataOp_eq_of_nomatch s headers v vrest hget hnone]
    refine ⟨?_, ?_, rfl⟩
    · rw [sendErrorOp, endOp_status]
      rfl
    · rw [sendErrorOp, endOp_status]
      rfl
  · intro digits u hsome
    rw [receiveMetadataOp_eq_of_match s headers v vrest digits u hget hsome]
    exact ⟨rfl, rfl⟩

/-- Witness for C4: the header value 100m arms a 100 millisecond timer and
strips the header. -/
theorem grpc_timeout_parsing_witness :
    (receiveMetadataOp {} [("grpc-timeout", .arr ["100m"])]).1.deadlineTimer = some 100 ∧
    (receiveMetadataOp {} [("grpc-timeout", .arr ["100m"])]).2 =
      some (mdRemove (fromHttp2Headers [("grpc-timeout", .arr ["100m"])]) "grpc-timeout") := by
  have h := grpc_timeout_parsing {} [("grpc-timeout", .arr ["100m"])] "100m" [] (by rfl)
  obtain ⟨ht, hmd⟩ := h.2.2.1 "100".data 'm' (by rfl)
  refine ⟨?_, hmd⟩
  rw [ht, show digitsToNat "100".data = 100 from by decide,
    show deadlineUnitsToMs 'm' = 1 from rfl, mul_one,
    jsToInt32_natCast 100 (by decide)]
  norm_num

/-- The anchored acceptor the claim asserts, written from the claim words:
the whole header value must be digits(1..8), then whitespace, then one
unit letter, and nothing else. -/
def specAnchoredDeadline (v : String) : Bool :=
  decide (1 ≤ (v.data.takeWhile isDigitChar).length) &&
    decide ((v.data.takeWhile isDigitChar).length ≤ 8) &&
    (match (v.data.dropWhile isDigitChar).dropWhile isSpaceChar with
     | [u] => isDeadlineUnitChar u
     | _ => false)

/-- Counterexample to C4 as stated: the value 1m0 does not match the
anchored regex of the claim (which therefore demands OUT_OF_RANGE), but
the unanchored regex of the code matches the substring 1m, so the server
arms a 1 millisecond timer and the status stays OK. -/
theorem grpc_timeout_anchoring_counterexample :
    specAnchoredDeadline "1m0" = false ∧
    deadlineMatch "1m0".data = some ("1".data, 'm') ∧
    (receiveMetadataOp {} [("grpc-timeout", .arr ["1m0"])]).1.deadlineTimer = some 1 ∧
    (receiveMetadataOp {} [("grpc-timeout", .arr ["1m0"])]).1.status.code = statusOK ∧
    statusOK ≠ statusOUT_OF_RANGE := by
  have hrm := receiveMetadataOp_eq_of_match {} [("grpc-timeout", .arr ["1m0"])]
    "1m0" [] "1".data 'm' (by rfl) (by rfl)
  refine ⟨by decide, by rfl, ?_, ?_, by decide⟩
  · rw [hrm, show digitsToNat "1".data = 1 from by decide,
      show deadlineUnitsToMs 'm' = 1 from rfl, mul_one, jsToInt32_natCast 1 (by decide)]
    norm_num
  · rw [hrm]

/-! ### call-stream.ts: Http2CallStream read and status machine (claims C3, C8)

The state carries the read-side and status-side fields of Http2CallStream:
canPush, isReadFilterPending, readsClosed, statusOutput, finalStatus, and
the two message queues (whose entries are message Buffers or the null end
marker, hence Option Buffer). The write-side fields (pendingWrite,
writesClosed) and the mapped :status code never influence listener message
or status delivery and are outside the claims, so they are not part of
this state. Asynchrony is event-shaped: the resolution of the
receiveMessage filter promise arrives as a filterDone event carrying the
filtered message, its rejection as filterFail; the outputStatus nextTick
deferral emits at the point the source schedules it, which preserves the
listener order because messages are only delivered while finalStatus is
null. -/

structure ClientStatus where
  code : Int
  details : String
  metadata : MetadataM := []
deriving DecidableEq, Repr

inductive ListenerEvent where
  | onReceiveMessage : Buffer → ListenerEvent
  | onReceiveStatus : ClientStatus → ListenerEvent
deriving DecidableEq, Repr

structure CallState where
  canPush : Bool := false
  isReadFilterPending : Bool := false
  readsClosed : Bool := false
  statusOutput : Bool := false
  finalStatus : Option ClientStatus := none
  unpushedReadMessages : List (Option Buffer) := []
  unfilteredReadMessages : List (Option Buffer) := []
deriving DecidableEq, Repr

/-- Http2CallStream.outputStatus: emits the final status to the listener
once; the subchannel unref side effects are not listener-visible. The
source precondition is finalStatus non-null. -/
def outputStatusOp (s : CallState) : CallState × List ListenerEvent :=
  if s.statusOutput then (s, [])
  else
    match s.finalStatus with
    | some st => ({ s with statusOutput := true }, [.onReceiveStatus st])
    | none => (s, [])

/-- The body of Http2CallStream.endCall once the guard passed: assign the
final status, and output it unless an OK status still waits for the reads
to close. -/
def endCallSet (s : CallState) (st : ClientStatus) : CallState × List ListenerEvent :=
  if s.readsClosed ∨ st.code ≠ statusOK then outputStatusOp { s with finalStatus := some st }
  else ({ s with finalStatus := some st }, [])

/-- Http2CallStream.endCall: a no-op unless no final status exists yet or
the existing one is OK (a later non-OK status takes priority). -/
def endCallOp (s : CallState) (st : ClientStatus) : CallState × List ListenerEvent :=
  match s.finalStatus with
  | none => endCallSet s st
  | some f => if f.code = statusOK then endCallSet s st else (s, [])

/-- Http2CallStream.push with null: close the reads and output a waiting
final status. -/
def pushNull (s : CallState) : CallState × List ListenerEvent :=
  let s1 := { s with readsClosed := true }
  match s1.finalStatus with
  | some _ => outputStatusOp s1
  | none => (s1, [])

/-- Http2CallStream.push with a message: deliver it, and when the head of
unpushedReadMessages is the null end marker, shift it and push null. -/
def pushMsg (s : CallState) (m : Buffer) : CallState × List ListenerEvent :=
  match s.unpushedReadMessages with
  | none :: rest =>
    let r := pushNull { s with unpushedReadMessages := rest }
    (r.1, .onReceiveMessage m :: r.2)
  | _ => (s, [.onReceiveMessage m])

def pushOp (s : CallState) : Option Buffer → CallState × List ListenerEvent
  | none => pushNull s
  | some m => pushMsg s m

/-- Http2CallStream.filterReceivedMessage: once the call ended the message
is dropped (push null); a null marker is pushed or queued by canPush; a
framed message starts the receiveMessage filter (resolution arrives as a
filterDone event). -/
def filterReceivedMessageOp (s : CallState) (fm : Option Buffer) :
    CallState × List ListenerEvent :=
  match s.finalStatus with
  | some _ => pushOp s none
  | none =>
    match fm with
    | none =>
      if s.canPush then pushOp s none
      else ({ s with unpushedReadMessages := s.unpushedReadMessages ++ [none] }, [])
    | some _ => ({ s with isReadFilterPending := true }, [])

/-- The delivery phase of Http2CallStream.handleFilteredRead on a live
call: the filter is no longer pending, and the message is pushed (pausing
the stream) or buffered according to canPush. -/
def handleFilteredReadDeliver (s : CallState) (m : Buffer) : CallState × List ListenerEvent :=
  if s.canPush then
    let r := pushOp { s with isReadFilterPending := false } (some m)
    ({ r.1 with canPush := false }, r.2)
  else
    ({ s with isReadFilterPending := false, unpushedReadMessages := s.unpushedReadMessages ++ [some m] }, [])

/-- The queue phase of Http2CallStream.handleFilteredRead: a queued
unfiltered message is handed to the filter, after the delivery outputs. -/
def handleFilteredReadNext (r1 : CallState × List ListenerEvent) : CallState × List ListenerEvent :=
  match r1.1.unfilteredReadMessages with
  | next :: restq =>
    let r2 := filterReceivedMessageOp { r1.1 with unfilteredReadMessages := restq } next
    (r2.1, r1.2 ++ r2.2)
  | [] => r1

/-- Http2CallStream.handleFilteredRead: an ended call drops the message;
otherwise deliver it and hand a queued unfiltered message to the filter. -/
def handleFilteredReadOp (s : CallState) (m : Buffer) : CallState × List ListenerEvent :=
  match s.finalStatus with
  | some _ => pushOp s none
  | none => handleFilteredReadNext (handleFilteredReadDeliver s m)

/-- Http2CallStream.tryPush: queue behind a pending filter, else filter. -/
def tryPushOp (s : CallState) (m : Option Buffer) : CallState × List ListenerEvent :=
  if s.isReadFilterPending then
    ({ s with unfilteredReadMessages := s.unfilteredReadMessages ++ [m] }, [])
  else filterReceivedMessageOp s m

/-- Http2CallStream.startRead: an ended call pushes null; otherwise allow
a push and deliver a buffered message now (else resume the stream). -/
def startReadOp (s : CallState) : CallState × List ListenerEvent :=
  match s.finalStatus with
  | some _ => pushOp s none
  | none =>
    match s.unpushedReadMessages with
    | next :: rest =>
      let r := pushOp { s with canPush := true, unpushedReadMessages := rest } next
      ({ r.1 with canPush := false }, r.2)
    | [] => ({ s with canPush := true }, [])

/-- The RST_STREAM code mapping of the close listener in attachHttp2Stream
(NGHTTP2 codes: REFUSED_STREAM 7, CANCEL 8, ENHANCE_YOUR_CALM 11,
INADEQUATE_SECURITY 12). -/
def rstStatus (rstCode : Nat) : ClientStatus :=
  if rstCode = 7 then { code := statusUNAVAILABLE, details := "Stream refused by server" }
  else if rstCode = 8 then { code := statusCANCELLED, details := "Call cancelled" }
  else if rstCode = 11 then { code := statusRESOURCE_EXHAUSTED, details := "Bandwidth exhausted" }
  else if rstCode = 12 then
    { code := statusPERMISSION_DENIED, details := "Protocol not secure enough" }
  else { code := statusINTERNAL, details := "" }

/-- Http2CallStream.cancelWithStatus: reset the transport stream (not
listener-visible) and end the call. -/
def cancelWithStatusOp (s : CallState) (code : Int) (details : String) :
    CallState × List ListenerEvent :=
  endCallOp s { code := code, details := details }

/-- The events that can reach an attached call stream. -/
inductive CallEvent where
  | recvMessage : Buffer → CallEvent
  | recvEnd : CallEvent
  | filterDone : Buffer → CallEvent
  | filterFail : String → CallEvent
  | recvTrailers : ClientStatus → CallEvent
  | trailersFail : CallEvent
  | streamClose : Nat → CallEvent
  | readStart : CallEvent
  | cancelCall : Int → String → CallEvent
  | disconnect : CallEvent
deriving Repr

/-- One event against the call stream: DATA frames and end go through
tryPush, filter resolution through handleFilteredRead, filter rejection
through handleFilterError (cancel with INTERNAL), trailers (after the
receiveTrailers filter) and close and disconnection through endCall. -/
def stepCall (s : CallState) : CallEvent → CallState × List ListenerEvent
  | .recvMessage m => tryPushOp s (some m)
  | .recvEnd => tryPushOp s none
  | .filterDone m => handleFilteredReadOp s m
  | .filterFail msg => cancelWithStatusOp s statusINTERNAL msg
  | .recvTrailers st => endCallOp s st
  | .trailersFail =>
    endCallOp s { code := statusINTERNAL, details := "Failed to process received status" }
  | .streamClose rst => endCallOp s (rstStatus rst)
  | .readStart => startReadOp s
  | .cancelCall code details => cancelWithStatusOp s code details
  | .disconnect => endCallOp s { code := statusUNAVAILABLE, details := "Connection dropped" }

def runCall (s : CallState) : List CallEvent → CallState × List ListenerEvent
  | [] => (s, [])
  | e :: rest =>
    let r := stepCall s e
    let r2 := runCall r.1 rest
    (r2.1, r.2 ++ r2.2)

def isStatusEv : ListenerEvent → Bool
  | .onReceiveStatus _ => true
  | .onReceiveMessage _ => false

def isMessageEv : ListenerEvent → Bool
  | .onReceiveMessage _ => true
  | .onReceiveStatus _ => false

def countStatus (l : List ListenerEvent) : Nat :=
  (l.filter isStatusEv).length

/-- No onReceiveMessage occurs after an onReceiveStatus. -/
def noMsgAfterStatus : List ListenerEvent → Bool
  | [] => true
  | .onReceiveStatus _ :: rest => rest.all (fun e => !isMessageEv e)
  | .onReceiveMessage _ :: rest => noMsgAfterStatus rest

/-- statusOutput implies a final status exists (outputStatus precondition,
maintained by the machine). -/
def InvCS (s : CallState) : Prop :=
  s.statusOutput = true → s.finalStatus ≠ none

/-- What one event may deliver: nothing after the status went out; only
messages (no status) while the status is unemitted; or messages followed
by exactly one status event the moment statusOutput flips. -/
def StepSpec (s : CallState) (r : CallState × List ListenerEvent) : Prop :=
  InvCS r.1 ∧
  ((s.statusOutput = true ∧ r.1.statusOutput = true ∧ r.2 = []) ∨
   (s.statusOutput = false ∧ r.1.statusOutput = false ∧ countStatus r.2 = 0) ∨
   (s.statusOutput = false ∧ r.1.statusOutput = true ∧
     ∃ pre st, r.2 = pre ++ [ListenerEvent.onReceiveStatus st] ∧ countStatus pre = 0))

theorem outputStatusOp_out (s : CallState) (hso : s.statusOutput = true) :
    outputStatusOp s = (s, []) := by
  simp [outputStatusOp, hso]

theorem outputStatusOp_emit (s : CallState) (st : ClientStatus)
    (hso : s.statusOutput = false) (hf : s.finalStatus = some st) :
    outputStatusOp s = ({ s with statusOutput := true }, [.onReceiveStatus st]) := by
  simp [outputStatusOp, hso, hf]

theorem outputStatusOp_finalStatus (s : CallState) :
    (outputStatusOp s).1.finalStatus = s.finalStatus := by
  rw [outputStatusOp]
  split
  · rfl
  · split <;> rfl

theorem pushNull_none (s : CallState) (hf : s.finalStatus = none) :
    pushNull s = ({ s with readsClosed := true }, []) := by
  simp [pushNull, hf]

theorem pushNull_some (s : CallState) (st : ClientStatus) (hf : s.finalStatus = some st) :
    pushNull s = outputStatusOp { s with readsClosed := true } := by
  simp [pushNull, hf]

theorem invCS_false_of_none (s : CallState) (h : InvCS s) (hf : s.finalStatus = none) :
    s.statusOutput = false := by
  rcases hso : s.statusOutput with _ | _
  · rfl
  · exact absurd hf (h hso)

theorem invCS_of_false {t : CallState} (h : t.statusOutput = false) : InvCS t := by
  intro hx
  rw [h] at hx
  exact absurd hx (by simp)

theorem pushNull_spec (s : CallState) (h : InvCS s) : StepSpec s (pushNull s) := by
  rcases hf : s.finalStatus with _ | st
  · rw [pushNull_none s hf]
    have hso := invCS_false_of_none s h hf
    exact ⟨fun hx => by simp [hso] at hx, Or.inr (Or.inl ⟨hso, hso, rfl⟩)⟩
  · rw [pushNull_some s st hf]
    rcases hso : s.statusOutput with _ | _
    · rw [outputStatusOp_emit _ st (by simp [hso]) (by simp [hf])]
      exact ⟨fun _ => by simp [hf], Or.inr (Or.inr ⟨hso, rfl, [], st, rfl, rfl⟩)⟩
    · rw [outputStatusOp_out _ (by simp [hso])]
      exact ⟨fun _ => by simp [hf], Or.inl ⟨hso, rfl, rfl⟩⟩

theorem pushMsg_none (s : CallState) (m : Buffer) (hf : s.finalStatus = none) :
    (pushMsg s m).1.statusOutput = s.statusOutput ∧
      (pushMsg s m).1.finalStatus = none ∧ countStatus (pushMsg s m).2 = 0 := by
  rw [pushMsg]
  split
  · rename_i rest heq
    rw [pushNull_none _ (by simpa using hf)]
    exact ⟨rfl, hf, by simp [countStatus, isStatusEv]⟩
  · exact ⟨rfl, hf, by simp [countStatus, isStatusEv]⟩

theorem pushOp_none_state (s : CallState) (v : Option Buffer) (hf : s.finalStatus = none) :
    (pushOp s v).1.statusOutput = s.statusOutput ∧
      (pushOp s v).1.finalStatus = none ∧ countStatus (pushOp s v).2 = 0 := by
  rcases v with _ | m
  · rw [pushOp, pushNull_none s hf]
    exact ⟨rfl, hf, rfl⟩
  · exact pushMsg_none s m hf

theorem filterReceivedMessageOp_none (s : CallState) (fm : Option Buffer)
    (hf : s.finalStatus = none) :
    (filterReceivedMessageOp s fm).1.statusOutput = s.statusOutput ∧
      (filterReceivedMessageOp s fm).1.finalStatus = none ∧
      countStatus (filterReceivedMessageOp s fm).2 = 0 := by
  rcases fm with _ | m
  · rcases hcp : s.canPush with _ | _
    · simp [filterReceivedMessageOp, hf, hcp, countStatus]
    · have hp := pushOp_none_state s none hf
      simp only [filterReceivedMessageOp, hf, hcp]
      simpa using hp
  · simp [filterReceivedMessageOp, hf, countStatus]

theorem filterReceivedMessageOp_ended (s : CallState) (fm : Option Buffer)
    (f : ClientStatus) (hfs : s.finalStatus = some f) :
    filterReceivedMessageOp s fm = pushNull s := by
  simp [filterReceivedMessageOp, hfs, pushOp]

theorem filterReceivedMessageOp_spec (s : CallState) (fm : Option Buffer) (h : InvCS s) :
    StepSpec s (filterReceivedMessageOp s fm) := by
  rcases hfs : s.finalStatus with _ | f
  · have hso := invCS_false_of_none s h hfs
    have hn := filterReceivedMessageOp_none s fm hfs
    exact ⟨invCS_of_false (hn.1.trans hso),
      Or.inr (Or.inl ⟨hso, hn.1.trans hso, hn.2.2⟩)⟩
  · rw [filterReceivedMessageOp_ended s fm f hfs]
    exact pushNull_spec s h

theorem tryPushOp_spec (s : CallState) (m : Option Buffer) (h : InvCS s) :
    StepSpec s (tryPushOp s m) := by
  rw [tryPushOp]
  split
  · rcases hso : s.statusOutput with _ | _
    · exact ⟨fun hx => absurd hx (by simp), Or.inr (Or.inl ⟨hso, rfl, rfl⟩)⟩
    · exact ⟨fun _ => h hso, Or.inl ⟨hso, rfl, rfl⟩⟩
  · exact filterReceivedMessageOp_spec s m h

theorem handleFilteredReadDeliver_none (s : CallState) (m : Buffer)
    (hf : s.finalStatus = none) :
    (handleFilteredReadDeliver s m).1.statusOutput = s.statusOutput ∧
      (handleFilteredReadDeliver s m).1.finalStatus = none ∧
      countStatus (handleFilteredReadDeliver s m).2 = 0 := by
  rw [handleFilteredReadDeliver]
  split
  · have hp := pushOp_none_state { s with isReadFilterPending := false } (some m) hf
    exact ⟨hp.1, hp.2.1, hp.2.2⟩
  · exact ⟨rfl, hf, rfl⟩

theorem countStatus_append (l1 l2 : List ListenerEvent) :
    countStatus (l1 ++ l2) = countStatus l1 + countStatus l2 := by
  simp [countStatus, List.filter_append]

theorem handleFilteredReadNext_none (r1 : CallState × List ListenerEvent)
    (hf : r1.1.finalStatus = none) (hc : countStatus r1.2 = 0) :
    (handleFilteredReadNext r1).1.statusOutput = r1.1.statusOutput ∧
      (handleFilteredReadNext r1).1.finalStatus = none ∧
      countStatus (handleFilteredReadNext r1).2 = 0 := by
  rw [handleFilteredReadNext]
  split
  · rename_i next restq heq
    have hfr := filterReceivedMessageOp_none
      { r1.1 with unfilteredReadMessages := restq } next hf
    refine ⟨hfr.1, hfr.2.1, ?_⟩
    have h2 := hfr.2.2
    show countStatus (r1.2 ++ _) = 0
    rw [countStatus_append, hc, h2]
  · exact ⟨rfl, hf, hc⟩

theorem handleFilteredReadOp_ended (s : CallState) (m : Buffer)
    (f : ClientStatus) (hfs : s.finalStatus = some f) :
    handleFilteredReadOp s m = pushNull s := by
  simp [handleFilteredReadOp, hfs, pushOp]

theorem handleFilteredReadOp_spec (s : CallState) (m : Buffer) (h : InvCS s) :
    StepSpec s (handleFilteredReadOp s m) := by
  rcases hfs : s.finalStatus with _ | f
  · have hso := invCS_false_of_none s h hfs
    have heq : handleFilteredReadOp s m =
        handleFilteredReadNext (handleFilteredReadDeliver s m) := by
      simp [handleFilteredReadOp, hfs]
    rw [heq]
    have hd := handleFilteredReadDeliver_none s m hfs
    have hn := handleFilteredReadNext_none _ hd.2.1 hd.2.2
    have hsoR := hn.1.trans (hd.1.trans hso)
    exact ⟨invCS_of_false hsoR, Or.inr (Or.inl ⟨hso, hsoR, hn.2.2⟩)⟩
  · rw [handleFilteredReadOp_ended s m f hfs]
    exact pushNull_spec s h

theorem startReadOp_ended (s : CallState) (f : ClientStatus) (hfs : s.finalStatus = some f) :
    startReadOp s = pushNull s := by
  simp [startReadOp, hfs, pushOp]

theorem startReadOp_spec (s : CallState) (h : InvCS s) : StepSpec s (startReadOp s) := by
  rcases hfs : s.finalStatus with _ | f
  · have hso := invCS_false_of_none s h hfs
    rw [startReadOp]
    split
    · rename_i f heq
      rw [hfs] at heq
      exact Option.noConfusion heq
    · split
      · rename_i next rest heq
        have hp := pushOp_none_state
          { s with canPush := true, unpushedReadMessages := rest } next hfs
        exact ⟨invCS_of_false (hp.1.trans hso),
          Or.inr (Or.inl ⟨hso, hp.1.trans hso, hp.2.2⟩)⟩
      · exact ⟨invCS_of_false hso, Or.inr (Or.inl ⟨hso, hso, rfl⟩)⟩
  · rw [startReadOp_ended s f hfs]
    exact pushNull_spec s h

theorem endCallSet_spec (s : CallState) (st : ClientStatus) :
    StepSpec s (endCallSet s st) := by
  by_cases hc : (s.readsClosed ∨ st.code ≠ statusOK)
  · rw [endCallSet, if_pos hc]
    rcases hso : s.statusOutput with _ | _
    · rw [outputStatusOp_emit _ st (by simp [hso]) (by simp)]
      exact ⟨fun _ => by simp, Or.inr (Or.inr ⟨hso, rfl, [], st, rfl, rfl⟩)⟩
    · rw [outputStatusOp_out _ (by simp [hso])]
      exact ⟨fun _ => by simp, Or.inl ⟨hso, rfl, rfl⟩⟩
  · rw [endCallSet, if_neg hc]
    rcases hso : s.statusOutput with _ | _
    · exact ⟨fun hx => by simp [hso] at hx, Or.inr (Or.inl ⟨hso, rfl, rfl⟩)⟩
    · exact ⟨fun _ => by simp, Or.inl ⟨hso, rfl, rfl⟩⟩

theorem endCallOp_spec (s : CallState) (st : ClientStatus) (h : InvCS s) :
    StepSpec s (endCallOp s st) := by
  rw [endCallOp]
  split
  · exact endCallSet_spec s st
  · split
    · exact endCallSet_spec s st
    · rcases hso : s.statusOutput with _ | _
      · exact ⟨h, Or.inr (Or.inl ⟨hso, hso, rfl⟩)⟩
      · exact ⟨h, Or.inl ⟨hso, hso, rfl⟩⟩

theorem stepCall_spec (s : CallState) (e : CallEvent) (h : InvCS s) :
    StepSpec s (stepCall s e) := by
  cases e with
  | recvMessage m => exact tryPushOp_spec s (some m) h
  | recvEnd => exact tryPushOp_spec s none h
  | filterDone m => exact handleFilteredReadOp_spec s m h
  | filterFail msg => exact endCallOp_spec s _ h
  | recvTrailers st => exact endCallOp_spec s st h
  | trailersFail => exact endCallOp_spec s _ h
  | streamClose rst => exact endCallOp_spec s _ h
  | readStart => exact startReadOp_spec s h
  | cancelCall code details => exact endCallOp_spec s _ h
  | disconnect => exact endCallOp_spec s _ h

theorem noMsgAfterStatus_of_zero (l : List ListenerEvent) (h : countStatus l = 0) :
    noMsgAfterStatus l = true := by
  induction l with
  | nil => rfl
  | cons e rest ih =>
    cases e with
    | onReceiveMessage m =>
      rw [noMsgAfterStatus]
      exact ih (by simpa [countStatus, isStatusEv] using h)
    | onReceiveStatus st =>
      exfalso
      simp [countStatus, isStatusEv] at h

theorem noMsgAfterStatus_append (l1 l2 : List ListenerEvent) (h : countStatus l1 = 0) :
    noMsgAfterStatus (l1 ++ l2) = noMsgAfterStatus l2 := by
  induction l1 with
  | nil => rfl
  | cons e rest ih =>
    cases e with
    | onReceiveMessage m =>
      rw [List.cons_append, noMsgAfterStatus]
      exact ih (by simpa [countStatus, isStatusEv] using h)
    | onReceiveStatus st =>
      exfalso
      simp [countStatus, isStatusEv] at h

theorem noMsgAfterStatus_single_status (pre : List ListenerEvent) (st : ClientStatus)
    (h : countStatus pre = 0) :
    noMsgAfterStatus (pre ++ [ListenerEvent.onReceiveStatus st]) = true := by
  rw [noMsgAfterStatus_append pre _ h]
  rfl

theorem runCall_silent (evs : List CallEvent) (s : CallState) (h : InvCS s)
    (hso : s.statusOutput = true) :
    InvCS (runCall s evs).1 ∧ (runCall s evs).1.statusOutput = true ∧
      (runCall s evs).2 = [] := by
  induction evs generalizing s with
  | nil => exact ⟨h, hso, rfl⟩
  | cons e rest ih =>
    obtain ⟨hi, hcase⟩ := stepCall_spec s e h
    rcases hcase with ⟨_, hso1, hout⟩ | ⟨hfalse, _, _⟩ | ⟨hfalse, _, _⟩
    · obtain ⟨ih1, ih2, ih3⟩ := ih (stepCall s e).1 hi hso1
      refine ⟨ih1, ih2, ?_⟩
      show (stepCall s e).2 ++ (runCall (stepCall s e).1 rest).2 = []
      rw [hout, ih3]
      rfl
    · simp [hfalse] at hso
    · simp [hfalse] at hso

theorem runCall_spec (evs : List CallEvent) (s : CallState) (h : InvCS s)
    (hso : s.statusOutput = false) :
    InvCS (runCall s evs).1 ∧
      countStatus (runCall s evs).2 =
        (if (runCall s evs).1.statusOutput = true then 1 else 0) ∧
      noMsgAfterStatus (runCall s evs).2 = true := by
  induction evs generalizing s with
  | nil =>
    refine ⟨h, ?_, rfl⟩
    show countStatus [] = if s.statusOutput = true then 1 else 0
    rw [hso]
    rfl
  | cons e rest ih =>
    obtain ⟨hi, hcase⟩ := stepCall_spec s e h
    rcases hcase with ⟨htrue, _, _⟩ | ⟨_, hso1, hcz⟩ | ⟨_, hso1, pre, st, hout, hpre⟩
    · simp [htrue] at hso
    · obtain ⟨ih1, ih2, ih3⟩ := ih (stepCall s e).1 hi hso1
      refine ⟨ih1, ?_, ?_⟩
      · show countStatus ((stepCall s e).2 ++ (runCall (stepCall s e).1 rest).2) = _
        rw [countStatus_append, hcz, ih2]
        exact Nat.zero_add _
      · show noMsgAfterStatus ((stepCall s e).2 ++ (runCall (stepCall s e).1 rest).2) = true
        rw [noMsgAfterStatus_append _ _ hcz]
        exact ih3
    · obtain ⟨sil1, sil2, sil3⟩ := runCall_silent rest (stepCall s e).1 hi hso1
      refine ⟨sil1, ?_, ?_⟩
      · show countStatus ((stepCall s e).2 ++ (runCall (stepCall s e).1 rest).2) = _
        rw [sil3, hout, List.append_nil, countStatus_append, hpre]
        have hc1 : (runCall s (e :: rest)).1.statusOutput = true := sil2
        rw [hc1]
        rfl
      · show noMsgAfterStatus ((stepCall s e).2 ++ (runCall (stepCall s e).1 rest).2) = true
        rw [sil3, hout, List.append_nil]
        exact noMsgAfterStatus_single_status pre st hpre

/-- C3: over any event sequence against a fresh call stream, the listener
observes onReceiveStatus exactly once when the final status has been
emitted (and never more than once), observes no onReceiveMessage after
it, and once the status went out any further event sequence delivers
nothing upward. -/
theorem client_call_single_status (evs evs2 : List CallEvent) :
    countStatus (runCall {} evs).2 =
        (if (runCall {} evs).1.statusOutput = true then 1 else 0) ∧
      noMsgAfterStatus (runCall {} evs).2 = true ∧
      ((runCall {} evs).1.statusOutput = true →
        (runCall (runCall {} evs).1 evs2).2 = []) := by
  have h0 : InvCS ({} : CallState) := invCS_of_false rfl
  obtain ⟨h1, h2, h3⟩ := runCall_spec evs {} h0 rfl
  refine ⟨h2, h3, fun hso => ?_⟩
  exact (runCall_silent evs2 (runCall {} evs).1 h1 hso).2.2

theorem client_call_single_status_witness :
    (runCall {} [CallEvent.streamClose 8]).1.statusOutput = true ∧
      countStatus (runCall {} [CallEvent.streamClose 8]).2 = 1 ∧
      (runCall (runCall {} [CallEvent.streamClose 8]).1 [CallEvent.recvMessage [1]]).2 = [] := by
  have h := client_call_single_status [CallEvent.streamClose 8] [CallEvent.recvMessage [1]]
  have hso : (runCall {} [CallEvent.streamClose 8]).1.statusOutput = true := by decide
  refine ⟨hso, ?_, h.2.2 hso⟩
  rw [h.1, hso]
  rfl

theorem endCallOp_finalStatus_of_none (s : CallState) (st : ClientStatus)
    (hf : s.finalStatus = none) : (endCallOp s st).1.finalStatus = some st := by
  rw [endCallOp]
  split
  · rw [endCallSet]
    split
    · rw [outputStatusOp_finalStatus]
    · rfl
  · rename_i f heq
    rw [hf] at heq
    exact Option.noConfusion heq

/-- C8: when the stream closes before any status was latched (no trailers
carried one), the call ends with the status determined by the RST_STREAM
code: REFUSED_STREAM (7) maps to UNAVAILABLE with details "Stream refused by server", CANCEL (8) to CANCELLED with "Call cancelled",
ENHANCE_YOUR_CALM (11) to RESOURCE_EXHAUSTED, INADEQUATE_SECURITY (12) to
PERMISSION_DENIED, and every other code to INTERNAL with empty details. -/
theorem rst_stream_close_mapping (s : CallState) (rst : Nat) (hf : s.finalStatus = none) :
    (stepCall s (CallEvent.streamClose rst)).1.finalStatus = some (rstStatus rst) ∧
      rstStatus 7 = { code := statusUNAVAILABLE, details := "Stream refused by server" } ∧
      rstStatus 8 = { code := statusCANCELLED, details := "Call cancelled" } ∧
      rstStatus 11 = { code := statusRESOURCE_EXHAUSTED, details := "Bandwidth exhausted" } ∧
      rstStatus 12 = { code := statusPERMISSION_DENIED, details := "Protocol not secure enough" } ∧
      (rst ≠ 7 → rst ≠ 8 → rst ≠ 11 → rst ≠ 12 →
        rstStatus rst = { code := statusINTERNAL, details := "" }) := by
  refine ⟨endCallOp_finalStatus_of_none s _ hf, rfl, rfl, rfl, rfl, fun h7 h8 h11 h12 => ?_⟩
  rw [rstStatus, if_neg h7, if_neg h8, if_neg h11, if_neg h12]

theorem rst_stream_close_mapping_witness :
    ({} : CallState).finalStatus = none ∧
      (stepCall {} (CallEvent.streamClose 8)).1.finalStatus =
        some { code := statusCANCELLED, details := "Call cancelled" } := by
  refine ⟨rfl, ?_⟩
  have h := rst_stream_close_mapping {} 8 rfl
  rw [h.1, h.2.2.1]

/-! ### resolving-load-balancer.ts: service config error handling (claim C5)

The state carries the fields of ResolvingLoadBalancer that the
onSuccessfulResolution resolver callback and handleResolutionFailure read
or write: latestChildState, latestChildPicker, currentState and
previousServiceConfig. Side effects that leave the class (the
channelControlHelper.updateState publication, the onFailedResolution and
onSuccessfulResolution callbacks, childLoadBalancer.updateAddressList)
are collected as outputs in order. Endpoint lists, attributes and the
config selector do not influence which of these paths is taken and are
not modelled. -/

structure StatusObjectM where
  code : Int
  details : String
deriving DecidableEq, Repr

inductive ConnState where
  | IDLE : ConnState
  | CONNECTING : ConnState
  | READY : ConnState
  | TRANSIENT_FAILURE : ConnState
  | SHUTDOWN : ConnState
deriving DecidableEq, Repr

/-- A picker as published by the resolving load balancer: its fresh
QueuePicker, an UnavailablePicker carrying a status, an opaque picker
received from the child (indexed), or the QueuePicker wrapper that
updateState adds around the picker when publishing IDLE. -/
inductive PickerM where
  | queueP : PickerM
  | unavailableP : StatusObjectM → PickerM
  | childP : Nat → PickerM
  | queueWrap : PickerM → PickerM
deriving DecidableEq, Repr

/-- A loadBalancingConfig entry; supported means its type is among the
registered load balancer types, so parsing it succeeds. -/
structure LbConfigM where
  policyName : String
  supported : Bool
deriving DecidableEq, Repr

structure ServiceConfigM where
  loadBalancingConfig : List LbConfigM := []
  methodConfig : List String := []
deriving DecidableEq, Repr

def defaultPickFirstConfig : LbConfigM := { policyName := "pick_first", supported := true }

/-- Modelled from the spec (load-balancer.ts is absent from this
repository): selection picks the first supported entry of
loadBalancingConfig, and with fallbackTodefault (the resolving load
balancer passes true) an empty pick falls back to the default pick-first
config, which keeps the spec's default-service-config row working. -/
def selectLbConfigFromList (l : List LbConfigM) (fallbackTodefault : Bool) : Option LbConfigM :=
  match l.find? (fun c => c.supported) with
  | some c => some c
  | none => if fallbackTodefault then some defaultPickFirstConfig else none

structure RlbState where
  latestChildState : ConnState := ConnState.IDLE
  latestChildPicker : PickerM := PickerM.queueP
  currentState : ConnState := ConnState.IDLE
  previousServiceConfig : Option ServiceConfigM := none
deriving DecidableEq, Repr

/-- The externally visible effects of the resolver callback, in order:
a (state, picker) publication through the channel control helper, the
failed- and successful-resolution callbacks, and an address list push to
the child load balancer carrying the selected config. -/
inductive RlbOut where
  | published : ConnState → PickerM → RlbOut
  | failedResolution : StatusObjectM → RlbOut
  | childUpdated : LbConfigM → RlbOut
  | successResolution : ServiceConfigM → RlbOut
deriving DecidableEq, Repr

/-- ResolvingLoadBalancer.updateState: wrap the picker in a QueuePicker
when publishing IDLE, record the current state, publish. -/
def updateStateRlb (st : RlbState) (cs : ConnState) (p : PickerM) : RlbState × List RlbOut :=
  if cs = ConnState.IDLE then
    ({ st with currentState := cs }, [RlbOut.published cs (PickerM.queueWrap p)])
  else ({ st with currentState := cs }, [RlbOut.published cs p])

/-- ResolvingLoadBalancer.handleResolutionFailure: only while the child
still reports IDLE is the failure surfaced, as a TRANSIENT_FAILURE
publication with an UnavailablePicker and the onFailedResolution
callback. -/
def handleResolutionFailure (st : RlbState) (error : StatusObjectM) : RlbState × List RlbOut :=
  if st.latestChildState = ConnState.IDLE then
    ((updateStateRlb st ConnState.TRANSIENT_FAILURE (PickerM.unavailableP error)).1,
      (updateStateRlb st ConnState.TRANSIENT_FAILURE (PickerM.unavailableP error)).2 ++
        [RlbOut.failedResolution error])
  else (st, [])

/-- The child load balancer's updateState callback: record the child's
state and picker, then publish through updateState. -/
def onChildStateUpdate (st : RlbState) (cs : ConnState) (p : PickerM) : RlbState × List RlbOut :=
  updateStateRlb { st with latestChildState := cs, latestChildPicker := p } cs p

def allOptionsFailedStatus : StatusObjectM :=
  { code := statusUNAVAILABLE,
    details := "All load balancer options in service config are not compatible" }

/-- The tail of the onSuccessfulResolution resolver callback, after the
working service config was determined: select a load balancing config
from the working list (a null selection counts as a resolution failure
and returns), push it to the child, and report the final service config
through the onSuccessfulResolution callback. -/
def resolutionTail (defaultSC : ServiceConfigM) (working : Option ServiceConfigM)
    (st1 : RlbState) (outs1 : List RlbOut) : RlbState × List RlbOut :=
  match selectLbConfigFromList
      (match working with | some w => w.loadBalancingConfig | none => []) true with
  | none =>
    ((handleResolutionFailure st1 allOptionsFailedStatus).1,
      outs1 ++ (handleResolutionFailure st1 allOptionsFailedStatus).2)
  | some lbcfg =>
    (st1, outs1 ++ [RlbOut.childUpdated lbcfg,
      RlbOut.successResolution (match working with | some w => w | none => defaultSC)])

/-- The onSuccessfulResolution resolver callback of ResolvingLoadBalancer:
the gRFC A21 conditional group determining the working service config
(valid config: adopt and remember; null config without error: clear the
previous config and use the default; null config with error: surface the
failure if no previous config exists, else keep the previous one),
followed by the selection and propagation tail. -/
def onSuccessfulResolutionRlb (defaultSC : ServiceConfigM) (st : RlbState)
    (serviceConfig : Option ServiceConfigM) (serviceConfigError : Option StatusObjectM) :
    RlbState × List RlbOut :=
  match serviceConfig with
  | some sc =>
    resolutionTail defaultSC (some sc) { st with previousServiceConfig := some sc } []
  | none =>
    match serviceConfigError with
    | none =>
      resolutionTail defaultSC (some defaultSC) { st with previousServiceConfig := none } []
    | some err =>
      match st.previousServiceConfig with
      | none =>
        resolutionTail defaultSC none
          (handleResolutionFailure st err).1 (handleResolutionFailure st err).2
      | some prev => resolutionTail defaultSC (some prev) st []

/-- Outputs that surface a resolution result to the channel: a published
state or the failed-resolution callback. -/
def isSurfaced : RlbOut → Bool
  | RlbOut.published _ _ => true
  | RlbOut.failedResolution _ => true
  | _ => false

/-- C5: amended statement. When the resolver yields a null service config
together with an error: if a previously adopted service config exists,
the channel keeps using it (the callback reports it and the child is
updated from it) and nothing is published; if no previous service config
exists, the resolution failure is surfaced (TRANSIENT_FAILURE published
with an UnavailablePicker carrying the error, then the failed-resolution
callback) ONLY while the child load balancer still reports IDLE — with
any other child state the failure is suppressed and nothing is surfaced.
When the resolver yields a valid service config, it is adopted and
remembered as the previous one. -/
theorem resolver_error_service_config_handling (defaultSC : ServiceConfigM)
    (st : RlbState) (err : StatusObjectM) :
    (∀ prev cfg, st.previousServiceConfig = some prev →
      selectLbConfigFromList prev.loadBalancingConfig true = some cfg →
      onSuccessfulResolutionRlb defaultSC st none (some err) =
        (st, [RlbOut.childUpdated cfg, RlbOut.successResolution prev])) ∧
    (st.previousServiceConfig = none → st.latestChildState = ConnState.IDLE →
      ∃ rest, (onSuccessfulResolutionRlb defaultSC st none (some err)).2 =
        RlbOut.published ConnState.TRANSIENT_FAILURE (PickerM.unavailableP err) ::
          RlbOut.failedResolution err :: rest) ∧
    (st.previousServiceConfig = none → st.latestChildState ≠ ConnState.IDLE →
      ((onSuccessfulResolutionRlb defaultSC st none (some err)).2.all
        (fun o => !isSurfaced o)) = true) ∧
    (∀ sc e,
      (onSuccessfulResolutionRlb defaultSC st (some sc) e).1.previousServiceConfig = some sc) := by
  refine ⟨?_, ?_, ?_, ?_⟩
  · intro prev cfg hprev hsel
    simp [onSuccessfulResolutionRlb, hprev, resolutionTail, hsel]
  · intro hprev hidle
    simp only [onSuccessfulResolutionRlb, hprev, resolutionTail, selectLbConfigFromList]
    simp [handleResolutionFailure, hidle, updateStateRlb]
  · intro hprev hnidle
    simp only [onSuccessfulResolutionRlb, hprev, resolutionTail, selectLbConfigFromList]
    simp [handleResolutionFailure, hnidle, updateStateRlb, isSurfaced]
  · intro sc e
    rcases hsel : selectLbConfigFromList sc.loadBalancingConfig true with _ | cfg
    · simp [onSuccessfulResolutionRlb, resolutionTail, hsel, handleResolutionFailure,
        updateStateRlb]
      split <;> rfl
    · simp [onSuccessfulResolutionRlb, resolutionTail, hsel]

theorem resolver_error_service_config_handling_witness :
    ({ previousServiceConfig :=
        some { loadBalancingConfig := [{ policyName := "round_robin", supported := true }] } } :
          RlbState).previousServiceConfig =
      some { loadBalancingConfig := [{ policyName := "round_robin", supported := true }] } ∧
    onSuccessfulResolutionRlb {}
        { previousServiceConfig :=
          some { loadBalancingConfig := [{ policyName := "round_robin", supported := true }] } }
        none (some { code := statusUNAVAILABLE, details := "DNS resolution failed" }) =
      ({ previousServiceConfig :=
          some { loadBalancingConfig := [{ policyName := "round_robin", supported := true }] } },
        [RlbOut.childUpdated { policyName := "round_robin", supported := true },
          RlbOut.successResolution
            { loadBalancingConfig := [{ policyName := "round_robin", supported := true }] }]) := by
  refine ⟨rfl, ?_⟩
  exact (resolver_error_service_config_handling {} _ _).1
    { loadBalancingConfig := [{ policyName := "round_robin", supported := true }] }
    { policyName := "round_robin", supported := true } rfl rfl

/-- Counterexample to C5 as claimed: after the child load balancer has
reported CONNECTING, a resolution that yields a null service config with
an error while no previous service config exists surfaces nothing — no
TRANSIENT_FAILURE publication and no failed-resolution callback — because
handleResolutionFailure is guarded by latestChildState being IDLE. -/
theorem resolver_error_suppression_counterexample :
    (onChildStateUpdate {} ConnState.CONNECTING (PickerM.childP 0)).1.latestChildState =
        ConnState.CONNECTING ∧
      (onChildStateUpdate {} ConnState.CONNECTING (PickerM.childP 0)).1.previousServiceConfig =
        none ∧
      ((onSuccessfulResolutionRlb {}
            (onChildStateUpdate {} ConnState.CONNECTING (PickerM.childP 0)).1 none
            (some { code := statusUNAVAILABLE, details := "DNS resolution failed" })).2.all
          (fun o => !isSurfaced o)) = true := by
  refine ⟨rfl, rfl, ?_⟩
  rfl

end GrpcJs
